import Mathlib

/-!
# Verification of the terraform-variables-resolution resolution engine

This file gives a shallow embedding of the core of the
`terraform-variables-resolution` VS Code extension: the text-pattern
extraction layer (`src/parsers/terraformParser.ts`), the bounded cache
(`src/utils/cache.ts`), and the recursive cross-file/cross-directory
resolver (`src/resolvers/variableResolver.ts`), together with theorems
settling the specification claims about them.

Modelling conventions:
* Strings are Lean `String`s; scanning functions work on `List Char`.
* The filesystem is a finite list of directories, each holding named files;
  a file whose content is `none` models a file whose read fails with an
  I/O error (the resolver catches such errors and continues).
* The JS `Date.now()` clock is frozen to a single instant `now` for the
  duration of one resolution, so TTL expiry of entries written during the
  run never triggers (TTL is 60s); the cache-entry bookkeeping
  (timestamps, access counts, LRU eviction) is still modelled faithfully.
* Asynchronous execution is sequentialised; `Promise.all` fan-out in
  `resolveVariableInMultipleContexts` is modelled as a left-to-right fold
  (results are collected in input order in the source as well).
* Exceptions never escape the resolver in the source (every public
  operation wraps its body in try/catch and converts errors to `null`);
  the embedding's functions are total and return `Option String`.
* The recursive resolver functions take an explicit fuel argument for
  structural recursion; theorems about them are stated for an arbitrary
  fuel at a successor, and executable wrappers instantiate a fuel that is
  ample for the concrete inputs considered.  In the source, termination
  is forced by the `maxRecursionDepth` guard, which we prove returns
  not-found without any recursive call.
-/

namespace TfResolve

/-! ## JavaScript character classes and small string helpers -/

/-- JS `\s` for the inputs considered: space, tab, newline, carriage
return, vertical tab, form feed. -/
def jsIsSpace (c : Char) : Bool :=
  c = ' ' || c = '\t' || c = '\n' || c = '\r' || c = '\x0b' || c = '\x0c'

/-- JS `\w`: ASCII letters, digits and underscore (by code point:
`a`-`z`, `A`-`Z`, `0`-`9`, `_`). -/
def isWordChar (c : Char) : Bool :=
  let n := c.toNat
  (97 ≤ n && n ≤ 122) || (65 ≤ n && n ≤ 90) || (48 ≤ n && n ≤ 57) || n = 95

/-- ASCII digit, by code point. -/
def isDigitCh (c : Char) : Bool :=
  48 ≤ c.toNat && c.toNat ≤ 57

/-- Skip a (possibly empty) run of JS whitespace. -/
def skipWs (cs : List Char) : List Char := cs.dropWhile jsIsSpace

/-- JS `String.prototype.trim` (on the ASCII inputs considered). -/
def jsTrim (s : String) : String :=
  String.mk (((s.data.dropWhile jsIsSpace).reverse.dropWhile jsIsSpace).reverse)

/-- Match a literal character sequence at the head of the input, returning
the rest on success. -/
def matchLit : List Char → List Char → Option (List Char)
  | [], cs => some cs
  | _ :: _, [] => none
  | p :: ps, c :: cs => if c = p then matchLit ps cs else none

/-- Is `needle` a prefix of `hay`? -/
def litAt (needle hay : List Char) : Bool := (matchLit needle hay).isSome

/-- Does `hay` contain `needle` as a contiguous substring
(JS `String.prototype.includes`)? -/
def containsSub (needle : List Char) : List Char → Bool
  | [] => needle.isEmpty
  | c :: rest => litAt needle (c :: rest) || containsSub needle rest

/-- JS `String.prototype.startsWith` (the Lean core `String.startsWith`
does not evaluate by kernel reduction, so the scan is over the character
list). -/
def jsStartsWith (s pre : String) : Bool := litAt pre.data s.data

/-- JS `String.prototype.endsWith`. -/
def jsEndsWith (s suff : String) : Bool := litAt suff.data.reverse s.data.reverse

def splitOnCharAux (sep : Char) : List Char → List Char → List String
  | acc, [] => [String.mk acc.reverse]
  | acc, c :: rest =>
    if c = sep then String.mk acc.reverse :: splitOnCharAux sep [] rest
    else splitOnCharAux sep (c :: acc) rest

/-- JS `String.prototype.split` with a one-character separator (also the
semantics of `String.splitOn` for such separators). -/
def splitOnChar (sep : Char) (s : String) : List String :=
  splitOnCharAux sep [] s.data

/-- `"  ".repeat(n)`-style string repetition. -/
def repeatStr (s : String) : Nat → String
  | 0 => ""
  | n + 1 => s ++ repeatStr s n

/-- Association-list update with JS object/Map semantics: replace in place
if the key is present, else append. -/
def setAssoc (l : List (String × String)) (k v : String) : List (String × String) :=
  if l.any (fun e => e.1 = k) then
    l.map (fun e => if e.1 = k then (k, v) else e)
  else l ++ [(k, v)]

/-- Association-list lookup (JS `obj[key]`). -/
def lookupAssoc (l : List (String × String)) (k : String) : Option String :=
  (l.find? (fun e => e.1 = k)).map (·.2)

/-! ## Node `path` (posix) -/

/-- Stack-based component normalisation used by `path.normalize`:
`.` is dropped, `..` pops a component (or is dropped at the root of an
absolute path, or kept for a relative path). -/
def normStack (isAbs : Bool) : List String → List String → List String
  | acc, [] => acc.reverse
  | acc, p :: rest =>
    if p = "." then normStack isAbs acc rest
    else if p = ".." then
      match acc with
      | [] => if isAbs then normStack isAbs [] rest else normStack isAbs [".."] rest
      | top :: tl =>
        if top = ".." then normStack isAbs (p :: top :: tl) rest
        else normStack isAbs tl rest
    else normStack isAbs (p :: acc) rest

/-- Node `path.normalize` (posix), for the slash-separated paths the
resolver manipulates (trailing-slash preservation is irrelevant here:
directory paths are produced without trailing slashes). -/
def pathNormalize (p : String) : String :=
  let isAbs := jsStartsWith p "/"
  let parts := (splitOnChar '/' p).filter (fun s => s ≠ "")
  let body := String.intercalate "/" (normStack isAbs [] parts)
  if isAbs then (if body = "" then "/" else "/" ++ body)
  else (if body = "" then "." else body)

/-- Node `path.dirname` (posix). -/
def pathDirname (p : String) : String :=
  let r := p.data.reverse
  let r1 := r.dropWhile (fun c => c = '/')
  let r2 := r1.dropWhile (fun c => c ≠ '/')
  let r3 := r2.dropWhile (fun c => c = '/')
  if r3 = [] then (if jsStartsWith p "/" then "/" else ".") else String.mk r3.reverse

/-- Node `path.join` of two segments. -/
def pathJoin (a b : String) : String := pathNormalize (a ++ "/" ++ b)

/-- Node `path.resolve cwd p` for an absolute `cwd` (the resolver only
calls it with absolute directories). -/
def pathResolve (cwd p : String) : String :=
  if jsStartsWith p "/" then pathNormalize p else pathNormalize (cwd ++ "/" ++ p)

/-! ## Filesystem model -/

/-- One file of a directory; `content = none` models a file whose
`readFile` fails with an I/O error. -/
structure FSFile where
  name : String
  content : Option String
  deriving DecidableEq, Repr

/-- One directory of the workspace tree. -/
structure FSDir where
  path : String
  files : List FSFile
  deriving DecidableEq, Repr

/-- Static context of one resolver instance: the filesystem, the
workspace root and the frozen clock instant. -/
structure Env where
  fs : List FSDir
  workspaceRoot : String
  now : Nat
  deriving Repr

def findDir (env : Env) (p : String) : Option FSDir :=
  env.fs.find? (fun d => d.path = p)

/-- `directoryExists` of the source (`fs.access` + `stat.isDirectory`). -/
def directoryExists (env : Env) (p : String) : Bool :=
  (findDir env p).isSome

/-- `readdir dir`: the names of the directory's entries. -/
def readdirFS (env : Env) (p : String) : List String :=
  ((findDir env p).map (fun d => d.files.map (·.name))).getD []

/-- `readFile(path.join dir name)`: `none` when the file is missing or
unreadable. -/
def readFileFS (env : Env) (dir fname : String) : Option String :=
  (findDir env dir).bind fun d => (d.files.find? (fun f => f.name = fname)).bind (·.content)

/-! ## `TerraformCache` (`src/utils/cache.ts`) -/

/-- Cache entry bookkeeping, as in the source. -/
structure CacheEntry where
  value : String
  timestamp : Nat
  accessCount : Nat
  lastAccessed : Nat
  deriving DecidableEq, Repr

abbrev Cache := List (String × CacheEntry)

/-- 60 seconds TTL. -/
def cacheTTL : Nat := 60000

/-- Maximum cache entries. -/
def cacheMaxSize : Nat := 1000

/-- `TerraformCache.get`: a missing key is a miss; an expired entry is
deleted and is a miss; a hit bumps the access statistics. -/
def cacheGet (now : Nat) (c : Cache) (key : String) : Option String × Cache :=
  match c.find? (fun e => e.1 = key) with
  | none => (none, c)
  | some (_, entry) =>
    if cacheTTL < now - entry.timestamp then
      (none, c.filter (fun e => e.1 ≠ key))
    else
      (some entry.value,
        c.map (fun e =>
          if e.1 = key then
            (e.1, { entry with accessCount := entry.accessCount + 1, lastAccessed := now })
          else e))

/-- The key evicted by `evictLeastRecentlyUsed`: the first entry whose
`lastAccessed` is strictly below the running minimum, initialised to
`Date.now()`; if no entry is strictly older than `now`, nothing is
evicted (as in the source). -/
def lruVictim (now : Nat) (c : Cache) : Option String :=
  (c.foldl
    (fun (acc : Option String × Nat) e =>
      if e.2.lastAccessed < acc.2 then (some e.1, e.2.lastAccessed) else acc)
    (none, now)).1

/-- `TerraformCache.set`: evict the LRU entry when at capacity, then
store a fresh entry (JS `Map.set` replaces in place, else appends). -/
def cacheSet (now : Nat) (c : Cache) (key value : String) : Cache :=
  let c1 :=
    if cacheMaxSize ≤ c.length then
      match lruVictim now c with
      | some k => c.filter (fun e => e.1 ≠ k)
      | none => c
    else c
  let entry : CacheEntry := ⟨value, now, 1, now⟩
  if c1.any (fun e => e.1 = key) then
    c1.map (fun e => if e.1 = key then (key, entry) else e)
  else c1 ++ [(key, entry)]

/-- Mutable state of one `TerraformVariableResolver` instance: the
`TerraformCache` plus the `resolvedModulePaths` map (the latter is not
time-bounded, as the spec notes). -/
structure RState where
  cache : Cache
  modulePaths : List (String × String)
  deriving DecidableEq, Repr

def RState.empty : RState := ⟨[], []⟩

def cacheGetS (env : Env) (st : RState) (key : String) : Option String × RState :=
  match cacheGet env.now st.cache key with
  | (r, c) => (r, { st with cache := c })

def cacheSetS (env : Env) (st : RState) (key value : String) : RState :=
  { st with cache := cacheSet env.now st.cache key value }

/-! ## JSON (`JSON.parse`, `JSON.stringify`, `TerraformParser.formatValue`)

JSON numbers are modelled as integers (`JSON.parse` of a fractional or
exponent numeral is out of scope; no claim depends on it). -/

inductive JsonValue where
  | jnull : JsonValue
  | jbool : Bool → JsonValue
  | jnum : Int → JsonValue
  | jstr : String → JsonValue
  | jarr : List JsonValue → JsonValue
  | jobj : List (String × JsonValue) → JsonValue

/-- JSON whitespace. -/
def skipJsonWs (cs : List Char) : List Char :=
  cs.dropWhile (fun c => c = ' ' || c = '\t' || c = '\n' || c = '\r')

def hexVal (c : Char) : Option Nat :=
  let n := c.toNat
  if 48 ≤ n && n ≤ 57 then some (n - 48)
  else if 97 ≤ n && n ≤ 102 then some (n - 87)
  else if 65 ≤ n && n ≤ 70 then some (n - 55)
  else none

/-- Parse the remainder of a JSON string literal (the opening quote is
already consumed), honouring the standard escapes. -/
def jsonParseStrAux : Nat → List Char → List Char → Option (String × List Char)
  | 0, _, _ => none
  | _, acc, '"' :: rest => some (String.mk acc.reverse, rest)
  | fuel + 1, acc, '\\' :: e :: rest =>
    if e = '"' then jsonParseStrAux fuel ('"' :: acc) rest
    else if e = '\\' then jsonParseStrAux fuel ('\\' :: acc) rest
    else if e = '/' then jsonParseStrAux fuel ('/' :: acc) rest
    else if e = 'b' then jsonParseStrAux fuel ('\x08' :: acc) rest
    else if e = 'f' then jsonParseStrAux fuel ('\x0c' :: acc) rest
    else if e = 'n' then jsonParseStrAux fuel ('\n' :: acc) rest
    else if e = 'r' then jsonParseStrAux fuel ('\r' :: acc) rest
    else if e = 't' then jsonParseStrAux fuel ('\t' :: acc) rest
    else if e = 'u' then
      match rest with
      | a :: b :: c :: d :: rest' =>
        match hexVal a, hexVal b, hexVal c, hexVal d with
        | some x, some y, some z, some w =>
          jsonParseStrAux fuel (Char.ofNat (x * 4096 + y * 256 + z * 16 + w) :: acc) rest'
        | _, _, _, _ => none
      | _ => none
    else none
  | fuel + 1, acc, c :: rest =>
    if c.toNat < 32 then none else jsonParseStrAux fuel (c :: acc) rest
  | _, _, [] => none

/-- Parse a JSON integer numeral (sign, digits, no leading zeros). -/
def jsonParseNum (cs : List Char) : Option (Int × List Char) :=
  let p := match cs with
    | '-' :: r => (true, r)
    | _ => (false, cs)
  let ds := p.2.takeWhile isDigitCh
  if ds = [] then none
  else if 1 < ds.length && ds.headD '0' = '0' then none
  else
    let rest := p.2.drop ds.length
    match rest with
    | '.' :: _ => none
    | 'e' :: _ => none
    | 'E' :: _ => none
    | _ =>
      let n : Nat := ds.foldl (fun a c => 10 * a + (c.toNat - 48)) 0
      some (if p.1 then -(n : Int) else (n : Int), rest)

/-- JS object-literal insert: a duplicate key overwrites in place. -/
def objIns (kvs : List (String × JsonValue)) (k : String) (v : JsonValue) :
    List (String × JsonValue) :=
  if kvs.any (fun e => e.1 = k) then
    kvs.map (fun e => if e.1 = k then (k, v) else e)
  else kvs ++ [(k, v)]

mutual

/-- Recursive-descent `JSON.parse` value parser (fuel bounds nesting). -/
def jsonParseVal : Nat → List Char → Option (JsonValue × List Char)
  | 0, _ => none
  | fuel + 1, cs =>
    match skipJsonWs cs with
    | 'n' :: 'u' :: 'l' :: 'l' :: rest => some (.jnull, rest)
    | 't' :: 'r' :: 'u' :: 'e' :: rest => some (.jbool true, rest)
    | 'f' :: 'a' :: 'l' :: 's' :: 'e' :: rest => some (.jbool false, rest)
    | '"' :: rest => (jsonParseStrAux (rest.length + 1) [] rest).map (fun p => (.jstr p.1, p.2))
    | '[' :: rest =>
      (match skipJsonWs rest with
       | ']' :: rest' => some (.jarr [], rest')
       | _ => (jsonParseElems fuel rest).map (fun p => (.jarr p.1, p.2)))
    | '\x7b' :: rest =>
      (match skipJsonWs rest with
       | '\x7d' :: rest' => some (.jobj [], rest')
       | _ => (jsonParseMembers fuel [] rest).map (fun p => (.jobj p.1, p.2)))
    | other => (jsonParseNum other).map (fun p => (.jnum p.1, p.2))

/-- Comma-separated array elements up to the closing bracket. -/
def jsonParseElems : Nat → List Char → Option (List JsonValue × List Char)
  | 0, _ => none
  | fuel + 1, cs =>
    match jsonParseVal fuel cs with
    | none => none
    | some (v, rest) =>
      match skipJsonWs rest with
      | ',' :: rest' => (jsonParseElems fuel rest').map (fun p => (v :: p.1, p.2))
      | ']' :: rest' => some ([v], rest')
      | _ => none

/-- Comma-separated object members up to the closing brace. -/
def jsonParseMembers : Nat → List (String × JsonValue) → List Char →
    Option (List (String × JsonValue) × List Char)
  | 0, _, _ => none
  | fuel + 1, acc, cs =>
    match skipJsonWs cs with
    | '"' :: rest =>
      (match jsonParseStrAux (rest.length + 1) [] rest with
       | none => none
       | some (k, rest1) =>
         match skipJsonWs rest1 with
         | ':' :: rest2 =>
           (match jsonParseVal fuel rest2 with
            | none => none
            | some (v, rest3) =>
              let acc' := objIns acc k v
              match skipJsonWs rest3 with
              | ',' :: rest4 => jsonParseMembers fuel acc' rest4
              | '\x7d' :: rest4 => some (acc', rest4)
              | _ => none)
         | _ => none)
    | _ => none

end

/-- `JSON.parse` (trailing garbage rejected). -/
def jsonParse (s : String) : Option JsonValue :=
  match jsonParseVal (s.length + 1) s.data with
  | some (v, rest) => if skipJsonWs rest = [] then some v else none
  | none => none

def hex4 (n : Nat) : String :=
  let d := fun (k : Nat) =>
    if k < 10 then Char.ofNat ('0'.toNat + k) else Char.ofNat ('a'.toNat + k - 10)
  String.mk [d (n / 4096 % 16), d (n / 256 % 16), d (n / 16 % 16), d (n % 16)]

def jsonEscapeChar (c : Char) : String :=
  if c = '"' then "\\\""
  else if c = '\\' then "\\\\"
  else if c = '\n' then "\\n"
  else if c = '\r' then "\\r"
  else if c = '\t' then "\\t"
  else if c = '\x08' then "\\b"
  else if c = '\x0c' then "\\f"
  else if c.toNat < 32 then "\\u" ++ hex4 c.toNat
  else String.mk [c]

/-- `JSON.stringify` of a string. -/
def jsonQuote (s : String) : String :=
  "\"" ++ String.join (s.data.map jsonEscapeChar) ++ "\""

mutual

/-- `JSON.stringify(v, null, 2)`; `ind` is the indentation of the
enclosing bracket. -/
def jsonStringifyPretty (ind : String) : JsonValue → String
  | .jnull => "null"
  | .jbool b => if b then "true" else "false"
  | .jnum n => toString n
  | .jstr s => jsonQuote s
  | .jarr [] => "[]"
  | .jarr (v :: vs) =>
    "[\n" ++ String.intercalate ",\n" (jsonStringifyPrettyList (ind ++ "  ") (v :: vs)) ++
      "\n" ++ ind ++ "]"
  | .jobj [] => "\x7b\x7d"
  | .jobj (kv :: kvs) =>
    "\x7b\n" ++ String.intercalate ",\n" (jsonStringifyPrettyKVs (ind ++ "  ") (kv :: kvs)) ++
      "\n" ++ ind ++ "\x7d"

def jsonStringifyPrettyList (ind : String) : List JsonValue → List String
  | [] => []
  | v :: vs => (ind ++ jsonStringifyPretty ind v) :: jsonStringifyPrettyList ind vs

def jsonStringifyPrettyKVs (ind : String) : List (String × JsonValue) → List String
  | [] => []
  | (k, v) :: kvs =>
    (ind ++ jsonQuote k ++ ": " ++ jsonStringifyPretty ind v) :: jsonStringifyPrettyKVs ind kvs

end

mutual

/-- `JSON.stringify(v)` without indentation. -/
def jsonStringifyCompact : JsonValue → String
  | .jnull => "null"
  | .jbool b => if b then "true" else "false"
  | .jnum n => toString n
  | .jstr s => jsonQuote s
  | .jarr l => "[" ++ String.intercalate "," (jsonStringifyCompactList l) ++ "]"
  | .jobj kvs => "\x7b" ++ String.intercalate "," (jsonStringifyCompactKVs kvs) ++ "\x7d"

def jsonStringifyCompactList : List JsonValue → List String
  | [] => []
  | v :: vs => jsonStringifyCompact v :: jsonStringifyCompactList vs

def jsonStringifyCompactKVs : List (String × JsonValue) → List String
  | [] => []
  | (k, v) :: kvs => (jsonQuote k ++ ":" ++ jsonStringifyCompact v) :: jsonStringifyCompactKVs kvs

end

mutual

/-- `TerraformParser.formatValue`: the display form of a parsed JSON
value — strings are re-quoted, arrays with more than 3 elements are cut
to the first three followed by `, ...]`, objects with more than 3
entries are cut to the first two `k = v` pairs followed by `, ... }`. -/
def formatValue : JsonValue → String
  | .jnull => "null"
  | .jstr s => "\"" ++ s ++ "\""
  | .jbool b => if b then "true" else "false"
  | .jnum n => toString n
  | .jarr l =>
    if l.length = 0 then "[]"
    else if 3 < l.length then
      "[" ++ String.intercalate ", " ((formatValueList l).take 3) ++ ", ...]"
    else "[" ++ String.intercalate ", " (formatValueList l) ++ "]"
  | .jobj kvs =>
    if kvs.length = 0 then "\x7b\x7d"
    else if 3 < kvs.length then
      "\x7b " ++ String.intercalate ", " ((formatValueKVs kvs).take 2) ++ ", ... \x7d"
    else "\x7b " ++ String.intercalate ", " (formatValueKVs kvs) ++ " \x7d"

def formatValueList : List JsonValue → List String
  | [] => []
  | v :: vs => formatValue v :: formatValueList vs

def formatValueKVs : List (String × JsonValue) → List String
  | [] => []
  | (k, v) :: kvs => (k ++ " = " ++ formatValue v) :: formatValueKVs kvs

end

/-- `json[variableName]`, defined for parsed objects (the shape of every
`.tfvars.json` file). -/
def jsonLookup : JsonValue → String → Option JsonValue
  | .jobj kvs, k => (kvs.find? (fun e => e.1 = k)).map (·.2)
  | _, _ => none

/-- `TerraformParser.parseJsonVariable`: `JSON.parse` the file, look the
variable up, and return its `formatValue` rendering; a parse error is
caught and yields `null`. -/
def parseJsonVariable (content variableName : String) : Option String :=
  match jsonParse content with
  | none => none
  | some json =>
    match jsonLookup json variableName with
    | some v => some (formatValue v)
    | none => none

/-! ## `TerraformParser` (`src/parsers/terraformParser.ts`)

Each regex of the source is hand-compiled to a deterministic scanner with
the same matching semantics.  Patterns anchored `^...$` with the `m` flag
are matched line by line (declarations sit on one line; a `\s` run inside
such a pattern never usefully crosses a newline on the inputs in scope).
Block-body regexes of the shape `([^}]*(?:\{[^}]*\}[^}]*)*)\}` always
terminate at the **first** `}`: the greedy `[^}]*` also consumes `{`, so
the nested-brace group can never start (it would have to start at a `}`),
and the final `\}` then succeeds immediately — the embedding captures the
body up to the first closing brace accordingly. -/

/-- `TerraformParser.cleanValue`: trim, cut a trailing `#` comment, strip
one trailing comma. -/
def cleanValue (value : String) : String :=
  if value = "" then ""
  else
    let c1 := jsTrim value
    let c2 :=
      if c1.data.contains '#' then jsTrim (String.mk (c1.data.takeWhile (fun c => c ≠ '#')))
      else c1
    if jsEndsWith c2 "," then jsTrim (c2.dropRight 1) else c2

/-- `TerraformParser.hasMatchingBraces`: string-aware brace balance scan
(braces inside `"`-quoted strings are ignored; backslash escapes are
honoured). -/
def hasMatchingBracesAux : List Char → Int → Bool → Bool → Bool
  | [], n, _, _ => n = 0
  | c :: rest, n, inString, escaped =>
    if escaped then hasMatchingBracesAux rest n inString false
    else if c = '\\' then hasMatchingBracesAux rest n inString true
    else if c = '"' then hasMatchingBracesAux rest n (!inString) false
    else if !inString && c = '\x7b' then hasMatchingBracesAux rest (n + 1) inString false
    else if !inString && c = '\x7d' then hasMatchingBracesAux rest (n - 1) inString false
    else hasMatchingBracesAux rest n inString false

def hasMatchingBraces (s : String) : Bool :=
  hasMatchingBracesAux s.data 0 false false

/-- Non-overlapping occurrences of the two-character sequence `a b`.
This models `line.match(/\\\x7b/g)`: in the source the regex literal is
written `/\\{/g`, which matches a literal backslash followed by a brace —
not a brace. -/
def countSeq (a b : Char) : List Char → Nat
  | [] => 0
  | [_] => 0
  | c :: d :: rest =>
    if c = a && d = b then 1 + countSeq a b rest
    else countSeq a b (d :: rest)

/-- The head of `line` after `^\s*NAME\s*=\s*`, shared by the assignment
patterns. -/
def afterAssign (name : String) (line : List Char) : Option (List Char) :=
  match matchLit name.data (skipWs line) with
  | none => none
  | some cs1 =>
    match skipWs cs1 with
    | '=' :: cs2 => some (skipWs cs2)
    | _ => none

/-- Pass 1 of `convertHclObjectToJson`:
`.replace(/(\w+)\s*=\s*/g, con quote-colon)` — each `key =` becomes
`"key": `. -/
def hclKeysToJson : Nat → List Char → List Char
  | 0, cs => cs
  | _, [] => []
  | fuel + 1, c :: rest =>
    if isWordChar c then
      let w := (c :: rest).takeWhile isWordChar
      let afterW := skipWs ((c :: rest).drop w.length)
      match afterW with
      | '=' :: cs2 =>
        '"' :: (w ++ '"' :: ':' :: ' ' :: hclKeysToJson fuel (skipWs cs2))
      | _ => c :: hclKeysToJson fuel rest
    else c :: hclKeysToJson fuel rest

/-- First character class of pass 2, `[^",\\\x7b\\[\\n\\r]` as it appears
in the source regex *literal*: it excludes `"` `,` `\` `{` `[` and the
letters `n` and `r` (the doubled backslashes make `\\n` a backslash plus
the letter `n`, and the class treats both as members). -/
def isCls1 (c : Char) : Bool :=
  !(c = '"' || c = ',' || c = '\\' || c = '\x7b' || c = '[' || c = 'n' || c = 'r')

/-- Second character class of pass 2, `[,\\\x7d\\n\\r]`: `,` `\` `}` and
the letters `n` and `r`. -/
def isCls2 (c : Char) : Bool :=
  c = ',' || c = '\\' || c = '\x7d' || c = 'n' || c = 'r'

/-- The numeric test of pass 2, `/^\\d+(\\.\\d+)?$/` as written in the
source: a literal backslash, letters `d`, optionally a backslash, any
character, a backslash and more letters `d`. -/
def litBackslashDTest (s : String) : Bool :=
  match s.data with
  | '\\' :: rest =>
    let ds := rest.takeWhile (fun c => c = 'd')
    if ds = [] then false
    else
      (match rest.drop ds.length with
       | [] => true
       | '\\' :: _ :: '\\' :: rest2 =>
         let ds2 := rest2.takeWhile (fun c => c = 'd')
         ds2 ≠ [] && rest2.drop ds2.length = []
       | _ => false)
  | _ => false

/-- Greedy backtracking of pass 2: try the longest value run first, then
shorten until `\s*` plus a class-2 character follows. -/
def tryValueSplit (r rest : List Char) : Nat → Option (List Char × List Char × Char × List Char)
  | 0 => none
  | k + 1 =>
    let value := r.take (k + 1)
    let tail := r.drop (k + 1) ++ rest
    let wsRun := tail.takeWhile jsIsSpace
    match tail.drop wsRun.length with
    | c :: rest2 =>
      if isCls2 c then some (value, wsRun, c, rest2) else tryValueSplit r rest k
    | [] => tryValueSplit r rest k

/-- Pass 2 of `convertHclObjectToJson`: quote the value after each `:`
unless it is `true`, `false` or passes the (mis-escaped) numeric test. -/
def hclQuoteValues : Nat → List Char → List Char
  | 0, cs => cs
  | _, [] => []
  | fuel + 1, c :: rest =>
    if c = ':' then
      let r := rest.takeWhile isCls1
      match tryValueSplit r (rest.drop r.length) r.length with
      | some (value, wsRun, c2, rest2) =>
        let tv := jsTrim (String.mk value)
        let rendered :=
          if tv = "true" || tv = "false" || litBackslashDTest tv then tv
          else "\"" ++ tv ++ "\""
        ':' :: ' ' :: (rendered.data ++ wsRun ++ c2 :: hclQuoteValues fuel rest2)
      | none => c :: hclQuoteValues fuel rest
    else c :: hclQuoteValues fuel rest

/-- Third character class, `[\\\x7d\\]]`: `\` `}` `]`. -/
def isCls3 (c : Char) : Bool := c = '\\' || c = '\x7d' || c = ']'

/-- Pass 3 of `convertHclObjectToJson`:
`.replace` of a comma before `\s*` and a class-3 character with just the
suffix (drops trailing commas). -/
def dropCommas : Nat → List Char → List Char
  | 0, cs => cs
  | _, [] => []
  | fuel + 1, c :: rest =>
    if c = ',' then
      let wsRun := rest.takeWhile jsIsSpace
      match rest.drop wsRun.length with
      | c2 :: rest2 =>
        if isCls3 c2 then wsRun ++ c2 :: dropCommas fuel rest2
        else c :: dropCommas fuel rest
      | [] => c :: dropCommas fuel rest
    else c :: dropCommas fuel rest

/-- `TerraformParser.convertHclObjectToJson` -/
def convertHclObjectToJson (hclObj : String) : String :=
  let j0 := jsTrim hclObj
  let j1 := if jsStartsWith j0 "\x7b" then j0 else "\x7b" ++ j0 ++ "\x7d"
  let j2 := String.mk (hclKeysToJson (j1.length + 1) j1.data)
  let j3 := String.mk (hclQuoteValues (j2.length + 1) j2.data)
  String.mk (dropCommas (j3.length + 1) j3.data)

/-- Line loop of `TerraformParser.formatHclObject` (blank lines are
skipped; a `}` on the line dedents before printing, a `{` indents
after). -/
def formatHclObjectLoop (indent : Nat) (acc : List String) : List String → List String
  | [] => acc.reverse
  | line :: rest =>
    let t := jsTrim line
    if t = "" then formatHclObjectLoop indent acc rest
    else
      let ind1 := if t.data.contains '\x7d' then indent - 1 else indent
      let out := repeatStr "  " ind1 ++ t
      let ind2 := if t.data.contains '\x7b' then ind1 + 1 else ind1
      formatHclObjectLoop ind2 (out :: acc) rest

/-- `TerraformParser.formatHclObject` -/
def formatHclObject (hclObj : String) : String :=
  String.intercalate "\n" (formatHclObjectLoop 0 [] (splitOnChar '\n' hclObj))

/-- `TerraformParser.formatComplexObject`: convert to JSON and
pretty-print; on failure fall back to HCL formatting. -/
def formatComplexObject (objectStr : String) : String :=
  match jsonParse (convertHclObjectToJson (jsTrim objectStr)) with
  | some parsed => jsonStringifyPretty "" parsed
  | none => formatHclObject objectStr

/-- Line-start test of `extractCompleteObject`,
`new RegExp("^\\s*" + name + "\\s*=\\s*\\{")` (correctly escaped, since
this one is built from a template string). -/
def ecoStartLine (name : String) (line : String) : Bool :=
  match afterAssign name line.data with
  | some ('\x7b' :: _) => true
  | _ => false

/-- `line.substring(line.indexOf("=") + 1)` for a line containing `=`. -/
def afterFirstEq : List Char → List Char
  | [] => []
  | c :: rest => if c = '=' then rest else afterFirstEq rest

/-- The per-line brace-count delta of `extractCompleteObject`: occurrences
of the sequence `\x5c\x7b` minus occurrences of `\x5c\x7d` (see
`countSeq` — the source's regex literals `/\\\x7b/g` and `/\\\x7d/g`
count backslash-brace pairs, not braces). -/
def bsBraceDiff (line : String) : Int :=
  (countSeq '\\' '\x7b' line.data : Int) - (countSeq '\\' '\x7d' line.data : Int)

def ecoAfter (bc : Int) (acc : List String) : List String → List String
  | [] => acc.reverse
  | line :: rest =>
    let acc' := line :: acc
    let bc' := bc + bsBraceDiff line
    if bc' ≤ 0 then acc'.reverse else ecoAfter bc' acc' rest

def ecoFind (name : String) : List String → List String
  | [] => []
  | line :: rest =>
    if ecoStartLine name line then
      let bc := bsBraceDiff line
      let afterEq := jsTrim (String.mk (afterFirstEq line.data))
      if bc = 0 then [afterEq] else ecoAfter bc [afterEq] rest
    else ecoFind name rest

/-- `TerraformParser.extractCompleteObject` -/
def extractCompleteObject (content name : String) : String :=
  match ecoFind name (splitOnChar '\n' content) with
  | [] => "\x7b\x7d"
  | ls => formatComplexObject (String.intercalate "\n" ls)

/-- `TerraformParser.parseComplexObject` -/
def parseComplexObject (objectValue content name : String) : String :=
  if jsTrim objectValue = "\x7b" then extractCompleteObject content name
  else if !(hasMatchingBraces objectValue) then extractCompleteObject content name
  else formatComplexObject objectValue

/-! ### The seven assignment patterns of `parseHclVariable` -/

/-- Pattern 1: `^\s*NAME\s*=\s*"([^"]*)"\s*$` -/
def p1Line (name : String) (line : List Char) : Option String :=
  match afterAssign name line with
  | some ('"' :: cs) =>
    let inner := cs.takeWhile (fun c => c ≠ '"')
    (match cs.drop inner.length with
     | '"' :: cs2 => if skipWs cs2 = [] then some (String.mk inner) else none
     | _ => none)
  | _ => none

/-- Pattern 2: `^\s*NAME\s*=\s*([^\s\n#\{\[]+)\s*(?:#.*)?$` -/
def p2Line (name : String) (line : List Char) : Option String :=
  match afterAssign name line with
  | some cs =>
    let v := cs.takeWhile (fun c => !jsIsSpace c && c ≠ '#' && c ≠ '\x7b' && c ≠ '[')
    if v = [] then none
    else
      (match skipWs (cs.drop v.length) with
       | [] => some (String.mk v)
       | '#' :: _ => some (String.mk v)
       | _ => none)
  | none => none

/-- Pattern 3: `^\s*NAME\s*=\s*(\[[^\]]*\])\s*$` -/
def p3Line (name : String) (line : List Char) : Option String :=
  match afterAssign name line with
  | some ('[' :: cs) =>
    let inner := cs.takeWhile (fun c => c ≠ ']')
    (match cs.drop inner.length with
     | ']' :: cs2 =>
       if skipWs cs2 = [] then some (String.mk ('[' :: (inner ++ [']']))) else none
     | _ => none)
  | _ => none

/-- Pattern 5: `^\s*NAME\s*=\s*(true|false)\s*$` -/
def p5Line (name : String) (line : List Char) : Option String :=
  match afterAssign name line with
  | some cs =>
    let tryWord := fun (w : String) =>
      match matchLit w.data cs with
      | some cs2 => if skipWs cs2 = [] then some w else none
      | none => none
    (match tryWord "true" with
     | some v => some v
     | none => tryWord "false")
  | none => none

/-- Pattern 6: `^\s*NAME\s*=\s*(\d+(?:\.\d+)?)\s*$` -/
def p6Line (name : String) (line : List Char) : Option String :=
  match afterAssign name line with
  | some cs =>
    let ds := cs.takeWhile isDigitCh
    if ds = [] then none
    else
      (match cs.drop ds.length with
       | '.' :: cs2 =>
         let ds2 := cs2.takeWhile isDigitCh
         if ds2 = [] then none
         else if skipWs (cs2.drop ds2.length) = [] then
           some (String.mk (ds ++ '.' :: ds2))
         else none
       | rest => if skipWs rest = [] then some (String.mk ds) else none)
  | none => none

/-- First line of pattern 7, `^\s*NAME\s*=\s*<<-?\s*(\w+)\s*` up to the
newline: returns the heredoc tag. -/
def p7Start (name : String) (line : List Char) : Option String :=
  match afterAssign name line with
  | some ('<' :: '<' :: cs) =>
    let cs1 := match cs with
      | '-' :: r => r
      | _ => cs
    let cs2 := skipWs cs1
    let tag := cs2.takeWhile isWordChar
    if tag = [] then none
    else if skipWs (cs2.drop tag.length) = [] then some (String.mk tag) else none
  | _ => none

/-- The heredoc terminator line `^\s*TAG\s*$`. -/
def p7IsTerm (tag : String) (line : List Char) : Bool :=
  match matchLit tag.data (skipWs line) with
  | some rest => skipWs rest = []
  | none => false

/-- Heredoc body lines up to (excluding) the terminator; `none` when the
terminator never appears. -/
def p7Collect (tag : String) : List (List Char) → Option (List String)
  | [] => none
  | line :: rest =>
    if p7IsTerm tag line then some []
    else (p7Collect tag rest).map (fun ls => String.mk line :: ls)

/-- First line (top to bottom) on which a line pattern matches —
the leftmost match of an `m`-anchored regex. -/
def scanLines (f : List Char → Option String) : List (List Char) → Option String
  | [] => none
  | l :: rest =>
    match f l with
    | some v => some v
    | none => scanLines f rest

/-- The suffix of the line from the `{` of `^\s*NAME\s*=\s*\{`. -/
def p4FromLine (name : String) (line : List Char) : Option (List Char) :=
  match afterAssign name line with
  | some ('\x7b' :: cs) => some ('\x7b' :: cs)
  | _ => none

def joinNl : List (List Char) → List Char
  | [] => []
  | [l] => l
  | l :: l2 :: rest => l ++ '\n' :: joinNl (l2 :: rest)

/-- Is the rest of the current line whitespace only (so that
`\s*(?:\n|$)` can match after a closing brace)? -/
def restOfLineWs (cs : List Char) : Bool :=
  (cs.takeWhile (fun c => c ≠ '\n')).all jsIsSpace

/-- Lazy search of pattern 4 for the first `}` that is followed by
whitespace up to the end of its line (the `(\{[\s\S]*?\})\s*(?:\n|$)`
machinery). -/
def p4Close (acc : List Char) : List Char → Option String
  | [] => none
  | c :: rest =>
    if c = '\x7d' && restOfLineWs rest then some (String.mk ((c :: acc).reverse))
    else p4Close (c :: acc) rest

/-- Pattern 4: `^\s*NAME\s*=\s*(\{[\s\S]*?\})\s*(?:\n|$)` over the whole
content. -/
def p4Scan (name : String) : List (List Char) → Option String
  | [] => none
  | line :: rest =>
    match p4FromLine name line with
    | some fromBrace =>
      let stream := fromBrace ++ (match rest with
        | [] => ([] : List Char)
        | _ => '\n' :: joinNl rest)
      (match p4Close [] stream with
       | some obj => some obj
       | none => p4Scan name rest)
    | none => p4Scan name rest

/-- Pattern 7 over the whole content. `match[2]` (the heredoc body,
including each line's newline) replaces the tag capture as the value. -/
def p7Scan (name : String) : List (List Char) → Option String
  | [] => none
  | line :: rest =>
    match p7Start name line with
    | some tag =>
      (match p7Collect tag rest with
       | some ls => some (String.join (ls.map (fun l => l ++ "\n")))
       | none => p7Scan name rest)
    | none => p7Scan name rest

/-- Post-processing shared by all patterns: a value opening a brace goes
through `parseComplexObject`, anything else through `cleanValue`. -/
def hclFinish (content name value : String) : String :=
  if jsStartsWith (jsTrim value) "\x7b" then parseComplexObject value content name
  else cleanValue value

/-- `TerraformParser.parseHclVariable`: the seven patterns are tried in
order and the first pattern with a match anywhere in the content wins. -/
def parseHclVariable (content name : String) : Option String :=
  let lines := (splitOnChar '\n' content).map String.data
  match scanLines (p1Line name) lines with
  | some v => some (hclFinish content name v)
  | none =>
  match scanLines (p2Line name) lines with
  | some v => some (hclFinish content name v)
  | none =>
  match scanLines (p3Line name) lines with
  | some v => some (hclFinish content name v)
  | none =>
  match p4Scan name lines with
  | some v => some (hclFinish content name v)
  | none =>
  match scanLines (p5Line name) lines with
  | some v => some (hclFinish content name v)
  | none =>
  match scanLines (p6Line name) lines with
  | some v => some (hclFinish content name v)
  | none =>
  match p7Scan name lines with
  | some v => some (hclFinish content name v)
  | none => none

/-! ### Blocks -/

/-- Scan of `KW\s+"NAME"\s*\{([^}]*...)\}`: find the block `KW "NAME"`
and return its body up to the first `}`. -/
def blockBodyAux (kw name : String) : Nat → List Char → Option String
  | 0, _ => none
  | _, [] => none
  | fuel + 1, c :: rest =>
    match matchLit kw.data (c :: rest) with
    | some afterKw =>
      (match afterKw with
       | w :: _ =>
         if jsIsSpace w then
           (match skipWs afterKw with
            | '"' :: cs =>
              (match matchLit name.data cs with
               | some ('"' :: cs2) =>
                 (match skipWs cs2 with
                  | '\x7b' :: bodyStart =>
                    let body := bodyStart.takeWhile (fun ch => ch ≠ '\x7d')
                    (match bodyStart.drop body.length with
                     | '\x7d' :: _ => some (String.mk body)
                     | _ => blockBodyAux kw name fuel rest)
                  | _ => blockBodyAux kw name fuel rest)
               | _ => blockBodyAux kw name fuel rest)
            | _ => blockBodyAux kw name fuel rest)
         else blockBodyAux kw name fuel rest
       | [] => none)
    | none => blockBodyAux kw name fuel rest

/-- Loop of `parseLocalsBlock`: each `locals\s*\{...\}` block (body up to
the first `}`) is handed to `parseHclVariable` until one matches. -/
def parseLocalsBlockAux (name : String) : Nat → List Char → Option String
  | 0, _ => none
  | _, [] => none
  | fuel + 1, c :: rest =>
    match matchLit "locals".data (c :: rest) with
    | some afterKw =>
      (match skipWs afterKw with
       | '\x7b' :: bodyStart =>
         let body := bodyStart.takeWhile (fun ch => ch ≠ '\x7d')
         (match bodyStart.drop body.length with
          | '\x7d' :: afterMatch =>
            (match parseHclVariable (String.mk body) name with
             | some v => some v
             | none => parseLocalsBlockAux name fuel afterMatch)
          | _ => parseLocalsBlockAux name fuel rest)
       | _ => parseLocalsBlockAux name fuel rest)
    | none => parseLocalsBlockAux name fuel rest

/-- `TerraformParser.parseLocalsBlock` -/
def parseLocalsBlock (content name : String) : Option String :=
  parseLocalsBlockAux name (content.length + 1) content.data

/-- `/value\s*=\s*([^\n]*)/` inside an output body. -/
def findValueAssign : Nat → List Char → Option String
  | 0, _ => none
  | _, [] => none
  | fuel + 1, c :: rest =>
    match matchLit "value".data (c :: rest) with
    | some afterKw =>
      (match skipWs afterKw with
       | '=' :: cs2 =>
         some (String.mk ((skipWs cs2).takeWhile (fun ch => ch ≠ '\n')))
       | _ => findValueAssign fuel rest)
    | none => findValueAssign fuel rest

/-- `/value\s*=\s*\{([^}]*...)\}/` inside an output body (body up to the
first `}`). -/
def findValueObjAssign : Nat → List Char → Option String
  | 0, _ => none
  | _, [] => none
  | fuel + 1, c :: rest =>
    match matchLit "value".data (c :: rest) with
    | some afterKw =>
      (match skipWs afterKw with
       | '=' :: cs2 =>
         (match skipWs cs2 with
          | '\x7b' :: bodyStart =>
            let body := bodyStart.takeWhile (fun ch => ch ≠ '\x7d')
            (match bodyStart.drop body.length with
             | '\x7d' :: _ => some (String.mk body)
             | _ => findValueObjAssign fuel rest)
          | _ => findValueObjAssign fuel rest)
       | _ => findValueObjAssign fuel rest)
    | none => findValueObjAssign fuel rest

/-- `TerraformParser.parseOutputBlock` -/
def parseOutputBlock (content outputName : String) : Option String :=
  match blockBodyAux "output" outputName (content.length + 1) content.data with
  | none => none
  | some body =>
    match findValueAssign (body.length + 1) body.data with
    | some v => some (cleanValue v)
    | none =>
      match findValueObjAssign (body.length + 1) body.data with
      | some inner => some ("\x7b" ++ inner ++ "\x7d")
      | none => none

/-- A parsed `module "name" { ... }` block (the source also carries a
`location: null` field used only by the UI).  The source field name
`variables` is a reserved word in Lean 4, hence `vars`. -/
structure ModuleCall where
  name : String
  source : String
  vars : List (String × String)
  deriving DecidableEq, Repr

/-- `/source\s*=\s*"([^"]*)"/` inside a module body. -/
def findSourceAssign : Nat → List Char → Option String
  | 0, _ => none
  | _, [] => none
  | fuel + 1, c :: rest =>
    match matchLit "source".data (c :: rest) with
    | some afterKw =>
      (match skipWs afterKw with
       | '=' :: cs2 =>
         (match skipWs cs2 with
          | '"' :: cs3 =>
            let inner := cs3.takeWhile (fun ch => ch ≠ '"')
            (match cs3.drop inner.length with
             | '"' :: _ => some (String.mk inner)
             | _ => findSourceAssign fuel rest)
          | _ => findSourceAssign fuel rest)
       | _ => findSourceAssign fuel rest)
    | none => findSourceAssign fuel rest

/-- `/^\s*(\w+)\s*=\s*(.+)$/` on a trimmed module-body line. -/
def pmvLine (t : String) : Option (String × String) :=
  let cs := skipWs t.data
  let w := cs.takeWhile isWordChar
  if w = [] then none
  else
    match skipWs (cs.drop w.length) with
    | '=' :: cs2 =>
      let v := skipWs cs2
      if v = [] then none else some (String.mk w, String.mk v)
    | _ => none

/-- `TerraformParser.parseModuleVariables`: every `key = expr` line of a
module body, excluding the `source` line and comment lines. -/
def parseModuleVariables (moduleContent : String) : List (String × String) :=
  (splitOnChar '\n' moduleContent).foldl
    (fun vars line =>
      let t := jsTrim line
      if jsStartsWith t "source" || jsStartsWith t "#" || !(t.data.contains '=') then vars
      else
        match pmvLine t with
        | some kv => setAssoc vars kv.1 (cleanValue kv.2)
        | none => vars)
    []

/-- `TerraformParser.parseModuleBlock` -/
def parseModuleBlock (content moduleName : String) : Option ModuleCall :=
  match blockBodyAux "module" moduleName (content.length + 1) content.data with
  | none => none
  | some body =>
    match findSourceAssign (body.length + 1) body.data with
    | none => none
    | some src => some ⟨moduleName, src, parseModuleVariables body⟩

/-! ### `extractVariableReferences` -/

def wordRun (cs : List Char) : List Char := cs.takeWhile isWordChar

def wordDotRun (cs : List Char) : List Char :=
  cs.takeWhile (fun c => isWordChar c || c = '.')

/-- All matches of `\bKW(\w+)` (for `KW` ∈ `var.`, `local.`), pushing
`match[0]`. -/
def scanPrefRefs (kw : String) : Nat → Option Char → List Char → List String
  | 0, _, _ => []
  | _, _, [] => []
  | fuel + 1, prev, c :: rest =>
    let boundaryOk := match prev with
      | some p => !(isWordChar p)
      | none => true
    if boundaryOk then
      match matchLit kw.data (c :: rest) with
      | some cs1 =>
        let w := wordRun cs1
        if w = [] then scanPrefRefs kw fuel (some c) rest
        else (kw ++ String.mk w) :: scanPrefRefs kw fuel (some (w.getLastD 'a')) (cs1.drop w.length)
      | none => scanPrefRefs kw fuel (some c) rest
    else scanPrefRefs kw fuel (some c) rest

/-- All matches of `\bmodule\.([\w.]+)`, pushing `match[0]`. -/
def scanModuleRefs : Nat → Option Char → List Char → List String
  | 0, _, _ => []
  | _, _, [] => []
  | fuel + 1, prev, c :: rest =>
    let boundaryOk := match prev with
      | some p => !(isWordChar p)
      | none => true
    if boundaryOk then
      match matchLit "module.".data (c :: rest) with
      | some cs1 =>
        let w := wordDotRun cs1
        if w = [] then scanModuleRefs fuel (some c) rest
        else ("module." ++ String.mk w) :: scanModuleRefs fuel (some (w.getLastD 'a')) (cs1.drop w.length)
      | none => scanModuleRefs fuel (some c) rest
    else scanModuleRefs fuel (some c) rest

/-- Greedy split of a `[\w.]` run for `([\w.]+)\.([\w.]+)`: the first
group extends to the last `.` that leaves a nonempty second group. -/
def splitLastDot (run : List Char) : Option (String × String) :=
  match run.reverse with
  | [] => none
  | c :: rtail =>
    let m2extra := rtail.takeWhile (fun ch => ch ≠ '.')
    (match rtail.drop m2extra.length with
     | '.' :: m1rev =>
       if m1rev = [] then none
       else some (String.mk m1rev.reverse, String.mk ((c :: m2extra).reverse))
     | _ => none)

/-- All matches of `\bdata\.([\w.]+)\.([\w.]+)`, pushing
`data.match[1].match[2]` as the source does. -/
def scanDataRefs : Nat → Option Char → List Char → List String
  | 0, _, _ => []
  | _, _, [] => []
  | fuel + 1, prev, c :: rest =>
    let boundaryOk := match prev with
      | some p => !(isWordChar p)
      | none => true
    if boundaryOk then
      match matchLit "data.".data (c :: rest) with
      | some cs1 =>
        let run := wordDotRun cs1
        (match splitLastDot run with
         | some (m1, m2) =>
           ("data." ++ m1 ++ "." ++ m2) :: scanDataRefs fuel (some (run.getLastD 'a')) (cs1.drop run.length)
         | none => scanDataRefs fuel (some c) rest)
      | none => scanDataRefs fuel (some c) rest
    else scanDataRefs fuel (some c) rest

/-- JS `Set` dedup preserving first-insertion order. -/
def dedupFirst (l : List String) : List String :=
  (l.foldl (fun acc s => if acc.contains s then acc else s :: acc) []).reverse

/-- `TerraformParser.extractVariableReferences`: the four reference
patterns in source order, duplicates removed. -/
def extractVariableReferences (value : String) : List String :=
  let cs := value.data
  let fuel := cs.length + 1
  dedupFirst
    (scanPrefRefs "var." fuel none cs ++ scanPrefRefs "local." fuel none cs ++
      scanModuleRefs fuel none cs ++ scanDataRefs fuel none cs)

/-! ### Word-boundary substitution (`String.replace` with a
`\b...\b`-wrapped pattern)

The replacement string is spliced literally (`$`-escape sequences in
replacement values are out of scope: resolved terraform values do not
contain `$&`/`$'`-style sequences). -/

inductive PatTok where
  | lit : Char → PatTok
  | anyc : PatTok
  deriving DecidableEq, Repr

/-- Match a token pattern at the head of the input (a `.` wildcard does
not match a newline — these RegExps carry no `s` flag). -/
def patMatchTok : List PatTok → List Char → Option (List Char × List Char)
  | [], cs => some ([], cs)
  | _ :: _, [] => none
  | .lit p :: ps, c :: cs =>
    if c = p then (patMatchTok ps cs).map (fun r => (c :: r.1, r.2)) else none
  | .anyc :: ps, c :: cs =>
    if c = '\n' then none else (patMatchTok ps cs).map (fun r => (c :: r.1, r.2))

/-- Global replace of `\b PAT \b`, scanning left to right and continuing
after each match. -/
def replaceWordPatAux (pats : List PatTok) (repl : List Char) : Nat → Option Char → List Char → List Char
  | 0, _, cs => cs
  | _, _, [] => []
  | fuel + 1, prev, c :: rest =>
    let pw := match prev with
      | some p => isWordChar p
      | none => false
    match patMatchTok pats (c :: rest) with
    | some (matched, after) =>
      let okStart := match matched with
        | mc :: _ => pw ≠ isWordChar mc
        | [] => false
      let okEnd := match matched.getLast?, after with
        | some lc, ac :: _ => isWordChar lc ≠ isWordChar ac
        | some lc, [] => isWordChar lc
        | none, _ => false
      if okStart && okEnd then
        repl ++ replaceWordPatAux pats repl fuel (some (matched.getLastD ' ')) after
      else c :: replaceWordPatAux pats repl fuel (some c) rest
    | none => c :: replaceWordPatAux pats repl fuel (some c) rest

def replaceWordPat (pats : List PatTok) (repl value : String) : String :=
  String.mk (replaceWordPatAux pats repl.data (value.length + 1) none value.data)

/-- Fully-escaped pattern (`escapeRegex` in `resolveNestedReferences`
makes every character literal). -/
def patAllLit (ref : String) : List PatTok := ref.data.map PatTok.lit

def patFirstDotEscAux : Bool → List Char → List PatTok
  | _, [] => []
  | seenDot, c :: rest =>
    if c = '.' then
      if seenDot then PatTok.anyc :: patFirstDotEscAux seenDot rest
      else PatTok.lit '.' :: patFirstDotEscAux true rest
    else PatTok.lit c :: patFirstDotEscAux seenDot rest

/-- Pattern of `resolveReferencesInValue`: JS `varRef.replace('.', '\\.')`
escapes only the first dot, so every later dot stays a regex wildcard. -/
def patFirstDotEsc (ref : String) : List PatTok :=
  patFirstDotEscAux false ref.data

/-! ## `TerraformVariableResolver` (`src/resolvers/variableResolver.ts`) -/

/-- Comma pass of the resolver's `formatHclStructure`:
`/,\s*(?=[^"]*(?:"[^"]*"[^"]*)*$)/g` — a comma and its following
whitespace become `,\n  ` when the lookahead holds, i.e. when the
remainder contains an even number of quotes. -/
def fhsCommas : Nat → List Char → List Char
  | 0, cs => cs
  | _, [] => []
  | fuel + 1, c :: rest =>
    if c = ',' then
      let wsRun := rest.takeWhile jsIsSpace
      let tail := rest.drop wsRun.length
      if (tail.countP (fun ch => ch = '"')) % 2 = 0 then
        ',' :: '\n' :: ' ' :: ' ' :: fhsCommas fuel tail
      else c :: fhsCommas fuel rest
    else c :: fhsCommas fuel rest

/-- Indentation pass of the resolver's `formatHclStructure` (blank lines
are kept, unlike the parser's `formatHclObject`). -/
def fhsIndentLoop (indent : Nat) (acc : List String) : List String → List String
  | [] => acc.reverse
  | line :: rest =>
    let t := jsTrim line
    let ind1 := if t.data.contains '\x7d' || t.data.contains ']' then indent - 1 else indent
    let out := repeatStr "  " ind1 ++ t
    let ind2 := if t.data.contains '\x7b' || t.data.contains '[' then ind1 + 1 else ind1
    fhsIndentLoop ind2 (out :: acc) rest

/-- `TerraformVariableResolver.formatHclStructure` -/
def formatHclStructure (hclStr : String) : String :=
  if hclStr = "" then hclStr
  else
    let formatted := String.mk (fhsCommas (hclStr.length + 1) hclStr.data)
    String.intercalate "\n" (fhsIndentLoop 0 [] (splitOnChar '\n' formatted))

/-- `TerraformVariableResolver.looksLikeJson` -/
def looksLikeJson (str : String) : Bool := (jsonParse str).isSome

/-- `TerraformVariableResolver.preserveComplexStructure` -/
def preserveComplexStructure (value : String) : String :=
  if value = "" then value
  else
    let trimmed := jsTrim value
    if (jsStartsWith trimmed "\x7b" && jsEndsWith trimmed "\x7d") ||
        (jsStartsWith trimmed "[" && jsEndsWith trimmed "]") then
      if looksLikeJson trimmed then
        match jsonParse trimmed with
        | some parsed => jsonStringifyPretty "" parsed
        | none => trimmed
      else formatHclStructure trimmed
    else trimmed

/-! ### Cache keys -/

def resolveKey (name dir : String) (depth : Nat) : String :=
  "resolve:" ++ name ++ ":" ++ dir ++ ":" ++ toString depth

def enhancedKey (name dir : String) (depth : Nat) (moduleContext : List String) : String :=
  "enhanced:" ++ name ++ ":" ++ dir ++ ":" ++ toString depth ++ ":" ++
    String.intercalate "," moduleContext

def visitKeyOf (dir name : String) (depth : Nat) : String :=
  dir ++ ":" ++ name ++ ":" ++ toString depth

def tfvarsKey (name dir : String) : String := "tfvars:" ++ name ++ ":" ++ dir

def localsKey (name dir : String) : String := "locals:" ++ name ++ ":" ++ dir

def outputsKey (name dir : String) : String := "outputs:" ++ name ++ ":" ++ dir

def moduleKey (name dir : String) : String := "module:" ++ name ++ ":" ++ dir

def modulePathKey (source dir : String) : String := "modulePath:" ++ source ++ ":" ++ dir

/-! ### Per-directory lookups (non-recursive) -/

/-- File loop of `findInTfvarsFiles`: a read error skips the file
(`continue` in the source); a parsed hit is preserved and cached. -/
def tfvarsLoop (env : Env) (name dir key : String) : List String → RState → Option String × RState
  | [], st => (none, st)
  | f :: rest, st =>
    match readFileFS env dir f with
    | none => tfvarsLoop env name dir key rest st
    | some content =>
      match (if jsEndsWith f ".json" then parseJsonVariable content name
             else parseHclVariable content name) with
      | some v =>
        let preserved := preserveComplexStructure v
        (some preserved, cacheSetS env st key preserved)
      | none => tfvarsLoop env name dir key rest st

/-- `TerraformVariableResolver.findInTfvarsFiles` -/
def findInTfvarsFiles (env : Env) (variableName dir : String) (st : RState) :
    Option String × RState :=
  match cacheGetS env st (tfvarsKey variableName dir) with
  | (some cached, st1) => (some cached, st1)
  | (none, st1) =>
    if !(directoryExists env dir) then (none, st1)
    else
      tfvarsLoop env variableName dir (tfvarsKey variableName dir)
        ((readdirFS env dir).filter (fun f => jsEndsWith f ".tfvars" || jsEndsWith f ".tfvars.json"))
        st1

/-- Shared `.tf`-file loop of `findInLocals` / `findInOutputs`: a read
error skips the file; a hit is cached under the given key. -/
def tfFileLoop (env : Env) (dir key : String) (parse : String → Option String) :
    List String → RState → Option String × RState
  | [], st => (none, st)
  | f :: rest, st =>
    match readFileFS env dir f with
    | none => tfFileLoop env dir key parse rest st
    | some content =>
      match parse content with
      | some v => (some v, cacheSetS env st key v)
      | none => tfFileLoop env dir key parse rest st

/-- `TerraformVariableResolver.findInLocals` -/
def findInLocals (env : Env) (variableName dir : String) (st : RState) :
    Option String × RState :=
  match cacheGetS env st (localsKey variableName dir) with
  | (some cached, st1) => (some cached, st1)
  | (none, st1) =>
    if !(directoryExists env dir) then (none, st1)
    else
      tfFileLoop env dir (localsKey variableName dir)
        (fun c => parseLocalsBlock c variableName)
        ((readdirFS env dir).filter (fun f => jsEndsWith f ".tf")) st1

/-- `TerraformVariableResolver.findInOutputs` -/
def findInOutputs (env : Env) (variableName dir : String) (st : RState) :
    Option String × RState :=
  match cacheGetS env st (outputsKey variableName dir) with
  | (some cached, st1) => (some cached, st1)
  | (none, st1) =>
    if !(directoryExists env dir) then (none, st1)
    else
      tfFileLoop env dir (outputsKey variableName dir)
        (fun c => parseOutputBlock c variableName)
        ((readdirFS env dir).filter (fun f => jsEndsWith f ".tf")) st1

/-- `TerraformVariableResolver.isWithinWorkspace`: a plain string-prefix
test on the normalized paths. -/
def isWithinWorkspace (env : Env) (dirPath : String) : Bool :=
  jsStartsWith (pathNormalize dirPath) (pathNormalize env.workspaceRoot)

/-! ### Module-call discovery -/

/-- `JSON.stringify` of a `ModuleCall` as cached by `findModuleCall`
(field order as constructed in the source; `location` is `null`). -/
def serializeModuleCall (mc : ModuleCall) : String :=
  jsonStringifyCompact (JsonValue.jobj
    [("name", .jstr mc.name), ("source", .jstr mc.source),
     ("variables", .jobj (mc.vars.map (fun kv => (kv.1, JsonValue.jstr kv.2)))),
     ("location", .jnull)])

/-- `JSON.parse` of a cached `ModuleCall`. -/
def moduleCallOfJson : JsonValue → Option ModuleCall
  | .jobj kvs =>
    (match (kvs.find? (fun e => e.1 = "name")).map (·.2),
           (kvs.find? (fun e => e.1 = "source")).map (·.2),
           (kvs.find? (fun e => e.1 = "variables")).map (·.2) with
     | some (JsonValue.jstr n), some (JsonValue.jstr s), some (JsonValue.jobj vs) =>
       some ⟨n, s, vs.filterMap (fun kv =>
         match kv.2 with
         | .jstr v => some (kv.1, v)
         | _ => none)⟩
     | _, _, _ => none)
  | _ => none

/-- File loop of `findModuleCall` (read errors skip the file). -/
def mcFileLoop (env : Env) (moduleName dir : String) : List String → RState → Option ModuleCall × RState
  | [], st => (none, st)
  | f :: rest, st =>
    match readFileFS env dir f with
    | none => mcFileLoop env moduleName dir rest st
    | some content =>
      match parseModuleBlock content moduleName with
      | some mc =>
        (some mc, cacheSetS env st (moduleKey moduleName dir) (serializeModuleCall mc))
      | none => mcFileLoop env moduleName dir rest st

/-- `TerraformVariableResolver.findModuleCall`: cached module calls are
stored JSON-serialized in the string cache. -/
def findModuleCall (env : Env) (moduleName dir : String) (st : RState) :
    Option ModuleCall × RState :=
  match cacheGetS env st (moduleKey moduleName dir) with
  | (some cached, st1) => ((jsonParse cached).bind moduleCallOfJson, st1)
  | (none, st1) =>
    if !(directoryExists env dir) then (none, st1)
    else mcFileLoop env moduleName dir ((readdirFS env dir).filter (fun f => jsEndsWith f ".tf")) st1

/-- The final gate of `resolveModulePath`:
`if (resolvedPath && this.isWithinWorkspace(resolvedPath))`. -/
def wsGate (env : Env) : Option String → Option String
  | some p => if isWithinWorkspace env p then some p else none
  | none => none

def resolveModulePathCore (env : Env) (source currentDir : String) : Option String :=
  wsGate env
    (if jsStartsWith source "./" || jsStartsWith source "../" then
      (if directoryExists env (pathResolve currentDir source) then
        some (pathResolve currentDir source) else none)
    else if jsStartsWith source "/" then
      (if directoryExists env (pathJoin env.workspaceRoot source) then
        some (pathJoin env.workspaceRoot source) else none)
    else if containsSub "terraform.io".data source.data ||
        containsSub "github.com".data source.data then none
    else
      (if directoryExists env (pathResolve currentDir source) then
        some (pathResolve currentDir source) else none))

/-- `TerraformVariableResolver.resolveModulePath`, with its dedicated
`resolvedModulePaths` map (`if (cached)` is a truthiness test, so an
empty cached string would recompute). -/
def resolveModulePath (env : Env) (source currentDir : String) (st : RState) :
    Option String × RState :=
  let key := modulePathKey source currentDir
  let compute := fun (_ : Unit) =>
    match resolveModulePathCore env source currentDir with
    | some p => (some p, { st with modulePaths := setAssoc st.modulePaths key p })
    | none => ((none : Option String), st)
  match (st.modulePaths.find? (fun e => e.1 = key)).map (·.2) with
  | some p => if p = "" then compute () else (some p, st)
  | none => compute ()

/-- All `(name, body)` blocks matched by
`/module\s+"(\w+)"\s*\{([^}]*(?:\{[^}]*\}[^}]*)*)\}/gs` (bodies up to the
first `}`; see the note on the greedy `[^}]*`). -/
def moduleBlocksAux : Nat → List Char → List (String × String)
  | 0, _ => []
  | _, [] => []
  | fuel + 1, c :: rest =>
    match matchLit "module".data (c :: rest) with
    | some afterKw =>
      (match afterKw with
       | w :: _ =>
         if jsIsSpace w then
           (match skipWs afterKw with
            | '"' :: cs =>
              let nm := wordRun cs
              if nm = [] then moduleBlocksAux fuel rest
              else
                (match cs.drop nm.length with
                 | '"' :: cs2 =>
                   (match skipWs cs2 with
                    | '\x7b' :: bodyStart =>
                      let body := bodyStart.takeWhile (fun ch => ch ≠ '\x7d')
                      (match bodyStart.drop body.length with
                       | '\x7d' :: afterMatch =>
                         (String.mk nm, String.mk body) :: moduleBlocksAux fuel afterMatch
                       | _ => moduleBlocksAux fuel rest)
                    | _ => moduleBlocksAux fuel rest)
                 | _ => moduleBlocksAux fuel rest)
            | _ => moduleBlocksAux fuel rest)
         else moduleBlocksAux fuel rest
       | [] => [])
    | none => moduleBlocksAux fuel rest

def moduleBlocksOf (content : String) : List (String × String) :=
  moduleBlocksAux (content.length + 1) content.data

/-- Block loop of `findModuleCallsToDirectory`: keep the module calls
whose `source` resolves to the target directory. -/
def fmcBlocks (env : Env) (searchDir targetDir : String) :
    List (String × String) → RState → List ModuleCall → List ModuleCall × RState
  | [], st, acc => (acc, st)
  | (mName, body) :: rest, st, acc =>
    match findSourceAssign (body.length + 1) body.data with
    | none => fmcBlocks env searchDir targetDir rest st acc
    | some src =>
      match resolveModulePath env src searchDir st with
      | (res, st1) =>
        if res = some targetDir then
          fmcBlocks env searchDir targetDir rest st1
            (acc ++ [⟨mName, src, parseModuleVariables body⟩])
        else fmcBlocks env searchDir targetDir rest st1 acc

/-- File loop of `findModuleCallsToDirectory`: the `readFile` is *not*
wrapped per file, so a read error aborts the scan and returns the module
calls collected so far (the surrounding catch). -/
def fmcFiles (env : Env) (searchDir targetDir : String) :
    List String → RState → List ModuleCall → List ModuleCall × RState
  | [], st, acc => (acc, st)
  | f :: rest, st, acc =>
    match readFileFS env searchDir f with
    | none => (acc, st)
    | some content =>
      match fmcBlocks env searchDir targetDir (moduleBlocksOf content) st acc with
      | (acc', st1) => fmcFiles env searchDir targetDir rest st1 acc'

/-- `TerraformVariableResolver.findModuleCallsToDirectory` -/
def findModuleCallsToDirectory (env : Env) (searchDir targetDir : String) (st : RState) :
    List ModuleCall × RState :=
  if !(directoryExists env searchDir) then ([], st)
  else
    fmcFiles env searchDir targetDir
      ((readdirFS env searchDir).filter (fun f => jsEndsWith f ".tf")) st []

/-- The reference cleaning of `resolveVariableReference`:
`reference.replace(/['"]/g, '').trim()`. -/
def cleanRefOf (reference : String) : String :=
  jsTrim (String.mk (reference.data.filter (fun c => c ≠ '\'' && c ≠ '"')))

/-- `maxRecursionDepth` of the resolver. -/
def maxRecursionDepth : Nat := 10

/-! ### The recursive resolvers

The eight mutually recursive methods are embedded with an explicit fuel
argument decremented at every call; the resolver's own termination
argument is the `maxRecursionDepth` guard (every re-entry into a guarded
function strictly increases `depth`, see claim 3), so any fuel at least
the length of the longest call chain computes the source's semantics.
The shared mutable `visited` set with its `finally`-delete discipline is
modelled by value: each frame passes the extended set to its callees
only, which is exactly the stack discipline of the source. -/

/-- Defunctionalized descriptor of one call into the mutually recursive
resolver methods (and their `for`-loops over module calls and extracted
references), so the whole recursion is a single structural descent on
fuel that the kernel can evaluate.  The `String × RState` methods
(`resolveNestedReferences`, `resolveReferencesInValue` and their loops)
are represented with a `some`-valued result. -/
inductive RCall where
  | rvv (variableName currentDir : String) (visited : List String) (depth : Nat)
  | rvve (variableName currentDir : String) (visited : List String) (depth : Nat)
      (moduleContext : List String)
  | rami (variableName moduleDir : String) (visited : List String) (depth : Nat)
  | fvipm (variableName currentDir parentDir : String) (visited : List String) (depth : Nat)
  | miLoop (calls : List ModuleCall) (variableName parentDir : String)
      (visited : List String) (depth : Nat)
  | rvr (reference contextDir : String) (visited : List String) (depth : Nat)
  | rnr (value contextDir : String) (visited : List String) (depth : Nat)
  | rnrLoop (refs : List String) (value contextDir : String) (visited : List String)
      (depth : Nat)
  | rmo (variableRef currentDir : String) (visited : List String) (depth : Nat)
  | rriv (value contextDir : String) (visited : List String) (depth : Nat)
  | rrivLoop (refs : List String) (value contextDir : String) (visited : List String)
      (depth : Nat)

/-- The eight mutually recursive resolver methods as one fuel-indexed
function; each named method below is a direct projection.  Fuel is
decremented at every call; since every re-entry into the two guarded
entry points passes `depth + 1` and the `maxRecursionDepth` guard cuts
any chain off, any sufficiently large fuel computes the source's
semantics (the concrete workspaces below stay far below the wrapper's
fuel).  The shared mutable `visited` set with its `finally`-delete
discipline is modelled by value: each frame passes the extended set to
its callees only, which is exactly the stack discipline of the source. -/
def resolverGo (env : Env) : Nat → RCall → RState → Option String × RState
  | 0, c, st =>
    (match c with
     | .rnr value _ _ _ => some value
     | .rnrLoop _ value _ _ _ => some value
     | .rriv value _ _ _ => some value
     | .rrivLoop _ value _ _ _ => some value
     | _ => none, st)
  | fuel + 1, c, st =>
    match c with
    | .rvv variableName currentDir visited depth =>
      -- `TerraformVariableResolver.resolveVariableValue`
      if maxRecursionDepth < depth then (none, st)
      else
        let cacheKey := resolveKey variableName currentDir depth
        match cacheGetS env st cacheKey with
        | (some cached, st1) => (some cached, st1)
        | (none, st1) =>
          let visitKey := visitKeyOf currentDir variableName depth
          if visited.contains visitKey then (none, st1)
          else
            let visited' := visitKey :: visited
            match findInTfvarsFiles env variableName currentDir st1 with
            | (some v, st2) => (some v, cacheSetS env st2 cacheKey v)
            | (none, st2) =>
            match findInLocals env variableName currentDir st2 with
            | (some v, st3) => (some v, cacheSetS env st3 cacheKey v)
            | (none, st3) =>
            match findInOutputs env variableName currentDir st3 with
            | (some v, st4) => (some v, cacheSetS env st4 cacheKey v)
            | (none, st4) =>
            match (if jsStartsWith variableName "module." then
                    resolverGo env fuel (.rmo variableName currentDir visited' (depth + 1)) st4
                   else (none, st4)) with
            | (some v, st5) => (some v, cacheSetS env st5 cacheKey v)
            | (none, st5) =>
              let parentDir := pathDirname currentDir
              if parentDir ≠ currentDir && isWithinWorkspace env parentDir then
                match resolverGo env fuel (.rvv variableName parentDir visited' (depth + 1)) st5 with
                | (some v, st6) => (some v, cacheSetS env st6 cacheKey v)
                | (none, st6) => (none, st6)
              else (none, st5)
    | .rvve variableName currentDir visited depth moduleContext =>
      -- `TerraformVariableResolver.resolveVariableValueEnhanced`
      if maxRecursionDepth < depth then (none, st)
      else
        let cacheKey := enhancedKey variableName currentDir depth moduleContext
        match cacheGetS env st cacheKey with
        | (some cached, st1) => (some cached, st1)
        | (none, st1) =>
          let visitKey := visitKeyOf currentDir variableName depth
          if visited.contains visitKey then (none, st1)
          else
            let visited' := visitKey :: visited
            match findInTfvarsFiles env variableName currentDir st1 with
            | (some v, st2) =>
              (match resolverGo env fuel (.rnr v currentDir visited' (depth + 1)) st2 with
               | (fv, st3) =>
                 let r := fv.getD v
                 (some r, cacheSetS env st3 cacheKey r))
            | (none, st2) =>
            match findInLocals env variableName currentDir st2 with
            | (some v, st3) =>
              (match resolverGo env fuel (.rnr v currentDir visited' (depth + 1)) st3 with
               | (fv, st4) =>
                 let r := fv.getD v
                 (some r, cacheSetS env st4 cacheKey r))
            | (none, st3) =>
            match findInOutputs env variableName currentDir st3 with
            | (some v, st4) =>
              (match resolverGo env fuel (.rnr v currentDir visited' (depth + 1)) st4 with
               | (fv, st5) =>
                 let r := fv.getD v
                 (some r, cacheSetS env st5 cacheKey r))
            | (none, st4) =>
            match (if moduleContext.isEmpty then
                    resolverGo env fuel (.rami variableName currentDir visited' (depth + 1)) st4
                   else (none, st4)) with
            | (some v, st5) => (some v, cacheSetS env st5 cacheKey v)
            | (none, st5) =>
            match (if jsStartsWith variableName "module." then
                    resolverGo env fuel (.rmo variableName currentDir visited' (depth + 1)) st5
                   else (none, st5)) with
            | (some v, st6) =>
              (match resolverGo env fuel (.rnr v currentDir visited' (depth + 1)) st6 with
               | (fv, st7) =>
                 let r := fv.getD v
                 (some r, cacheSetS env st7 cacheKey r))
            | (none, st6) =>
              let parentDir := pathDirname currentDir
              if parentDir ≠ currentDir && isWithinWorkspace env parentDir then
                match resolverGo env fuel (.fvipm variableName currentDir parentDir visited' (depth + 1)) st6 with
                | (some v, st7) => (some v, cacheSetS env st7 cacheKey v)
                | (none, st7) =>
                  match resolverGo env fuel (.rvve variableName parentDir visited' (depth + 1) moduleContext) st7 with
                  | (some v, st8) => (some v, cacheSetS env st8 cacheKey v)
                  | (none, st8) => (none, st8)
              else (none, st6)
    | .rami variableName moduleDir visited depth =>
      -- `TerraformVariableResolver.resolveAsModuleInput`
      let parentDir := pathDirname moduleDir
      if !(isWithinWorkspace env parentDir) then (none, st)
      else
        (match findModuleCallsToDirectory env parentDir moduleDir st with
         | (moduleCalls, st1) =>
           resolverGo env fuel (.miLoop moduleCalls variableName parentDir visited depth) st1)
    | .fvipm variableName currentDir parentDir visited depth =>
      -- `TerraformVariableResolver.findVariableInParentModule`
      (match findModuleCallsToDirectory env parentDir currentDir st with
       | (moduleCalls, st1) =>
         resolverGo env fuel (.miLoop moduleCalls variableName parentDir visited depth) st1)
    | .miLoop calls variableName parentDir visited depth =>
      -- the module-call loop shared verbatim by `resolveAsModuleInput`
      -- and `findVariableInParentModule`: a JS-falsy (empty) assignment
      -- is skipped; a null resolution tries the next module call
      (match calls with
       | [] => (none, st)
       | mc :: rest =>
         match lookupAssoc mc.vars variableName with
         | some ref =>
           if ref = "" then
             resolverGo env fuel (.miLoop rest variableName parentDir visited depth) st
           else
             (match resolverGo env fuel (.rvr ref parentDir visited depth) st with
              | (some r, st1) => (some r, st1)
              | (none, st1) =>
                resolverGo env fuel (.miLoop rest variableName parentDir visited depth) st1)
         | none => resolverGo env fuel (.miLoop rest variableName parentDir visited depth) st)
    | .rvr reference contextDir visited depth =>
      -- `TerraformVariableResolver.resolveVariableReference`
      let cleanRef := cleanRefOf reference
      if jsStartsWith cleanRef "var." then
        resolverGo env fuel (.rvve (cleanRef.drop 4) contextDir visited depth []) st
      else if jsStartsWith cleanRef "local." then
        findInLocals env (cleanRef.drop 6) contextDir st
      else if jsStartsWith cleanRef "module." then
        resolverGo env fuel (.rmo cleanRef contextDir visited depth) st
      else (some cleanRef, st)
    | .rnr value contextDir visited depth =>
      -- `TerraformVariableResolver.resolveNestedReferences`
      if value = "" then (some value, st)
      else
        resolverGo env fuel
          (.rnrLoop (extractVariableReferences value) value contextDir visited depth) st
    | .rnrLoop refs value contextDir visited depth =>
      -- reference loop of `resolveNestedReferences`: substitute when the
      -- resolution is non-null and differs from the reference itself
      (match refs with
       | [] => (some value, st)
       | varRef :: rest =>
         match resolverGo env fuel (.rvr varRef contextDir visited depth) st with
         | (resolved, st1) =>
           let value' :=
             match resolved with
             | some r => if r ≠ varRef then replaceWordPat (patAllLit varRef) r value else value
             | none => value
           resolverGo env fuel (.rnrLoop rest value' contextDir visited depth) st1)
    | .rmo variableRef currentDir visited depth =>
      -- `TerraformVariableResolver.resolveModuleOutput`
      let parts := splitOnChar '.' variableRef
      if parts.length < 3 || parts.headD "" ≠ "module" then (none, st)
      else
        let moduleName := (parts.drop 1).headD ""
        let outputName := String.intercalate "." (parts.drop 2)
        match findModuleCall env moduleName currentDir st with
        | (none, st1) => (none, st1)
        | (some mc, st1) =>
          match resolveModulePath env mc.source currentDir st1 with
          | (none, st2) => (none, st2)
          | (some modulePath, st2) =>
            match findInOutputs env outputName modulePath st2 with
            | (some outputValue, st3) =>
              (match resolverGo env fuel (.rriv outputValue modulePath visited (depth + 1)) st3 with
               | (r, st4) => (some (r.getD outputValue), st4))
            | (none, st3) => (none, st3)
    | .rriv value contextDir visited depth =>
      -- `TerraformVariableResolver.resolveReferencesInValue`
      if value = "" then (some value, st)
      else
        resolverGo env fuel
          (.rrivLoop (extractVariableReferences value) value contextDir visited depth) st
    | .rrivLoop refs value contextDir visited depth =>
      -- reference loop of `resolveReferencesInValue`: substitution uses
      -- the first-dot-escaped pattern and only needs a non-null resolution
      (match refs with
       | [] => (some value, st)
       | varRef :: rest =>
         match resolverGo env fuel (.rvv varRef contextDir visited depth) st with
         | (resolvedRef, st1) =>
           let value' :=
             match resolvedRef with
             | some r => replaceWordPat (patFirstDotEsc varRef) r value
             | none => value
           resolverGo env fuel (.rrivLoop rest value' contextDir visited depth) st1)

/-- `TerraformVariableResolver.resolveVariableValue` (fuel-indexed). -/
def resolveVariableValueF (env : Env) (fuel : Nat) (variableName currentDir : String)
    (visited : List String) (depth : Nat) (st : RState) : Option String × RState :=
  resolverGo env fuel (.rvv variableName currentDir visited depth) st

/-- `TerraformVariableResolver.resolveVariableValueEnhanced` (fuel-indexed). -/
def resolveVariableValueEnhancedF (env : Env) (fuel : Nat) (variableName currentDir : String)
    (visited : List String) (depth : Nat) (moduleContext : List String) (st : RState) :
    Option String × RState :=
  resolverGo env fuel (.rvve variableName currentDir visited depth moduleContext) st

/-- `TerraformVariableResolver.resolveAsModuleInput` (fuel-indexed). -/
def resolveAsModuleInputF (env : Env) (fuel : Nat) (variableName moduleDir : String)
    (visited : List String) (depth : Nat) (st : RState) : Option String × RState :=
  resolverGo env fuel (.rami variableName moduleDir visited depth) st

/-- `TerraformVariableResolver.findVariableInParentModule` (fuel-indexed). -/
def findVariableInParentModuleF (env : Env) (fuel : Nat)
    (variableName currentDir parentDir : String) (visited : List String) (depth : Nat)
    (st : RState) : Option String × RState :=
  resolverGo env fuel (.fvipm variableName currentDir parentDir visited depth) st

/-- The shared module-call loop of `resolveAsModuleInput` and
`findVariableInParentModule` (fuel-indexed). -/
def moduleInputLoopF (env : Env) (fuel : Nat) (calls : List ModuleCall)
    (variableName parentDir : String) (visited : List String) (depth : Nat) (st : RState) :
    Option String × RState :=
  resolverGo env fuel (.miLoop calls variableName parentDir visited depth) st

/-- `TerraformVariableResolver.resolveVariableReference` (fuel-indexed). -/
def resolveVariableReferenceF (env : Env) (fuel : Nat) (reference contextDir : String)
    (visited : List String) (depth : Nat) (st : RState) : Option String × RState :=
  resolverGo env fuel (.rvr reference contextDir visited depth) st

/-- `TerraformVariableResolver.resolveNestedReferences` (fuel-indexed). -/
def resolveNestedReferencesF (env : Env) (fuel : Nat) (value contextDir : String)
    (visited : List String) (depth : Nat) (st : RState) : String × RState :=
  match resolverGo env fuel (.rnr value contextDir visited depth) st with
  | (r, st1) => (r.getD value, st1)

/-- `TerraformVariableResolver.resolveModuleOutput` (fuel-indexed). -/
def resolveModuleOutputF (env : Env) (fuel : Nat) (variableRef currentDir : String)
    (visited : List String) (depth : Nat) (st : RState) : Option String × RState :=
  resolverGo env fuel (.rmo variableRef currentDir visited depth) st

/-- `TerraformVariableResolver.resolveReferencesInValue` (fuel-indexed). -/
def resolveReferencesInValueF (env : Env) (fuel : Nat) (value contextDir : String)
    (visited : List String) (depth : Nat) (st : RState) : String × RState :=
  match resolverGo env fuel (.rriv value contextDir visited depth) st with
  | (r, st1) => (r.getD value, st1)

/-- Fuel ample for every concrete resolution considered in this file
(the depth guard caps any guarded chain long before this). -/
def resolverFuel : Nat := 128

/-- The public `resolveVariableValue` (callers pass a fresh visited set
and depth 0). -/
def resolveVariableValue (env : Env) (variableName currentDir : String)
    (visited : List String) (depth : Nat) (st : RState) : Option String × RState :=
  resolveVariableValueF env resolverFuel variableName currentDir visited depth st

/-- The public `resolveVariableValueEnhanced`. -/
def resolveVariableValueEnhanced (env : Env) (variableName currentDir : String)
    (visited : List String) (depth : Nat) (moduleContext : List String) (st : RState) :
    Option String × RState :=
  resolveVariableValueEnhancedF env resolverFuel variableName currentDir visited depth moduleContext st

/-- `TerraformVariableResolver.resolveVariableInMultipleContexts`: each
candidate directory is resolved independently (fresh visited set, depth
0); only non-null, non-blank values are kept, in candidate order.  The
source dispatches these concurrently over the shared cache and collects
results in input order; the embedding sequentialises the cache passes in
that same order. -/
def resolveVariableInMultipleContexts (env : Env) (variableName : String) :
    List String → RState → List (String × String) × RState
  | [], st => ([], st)
  | dir :: rest, st =>
    match resolveVariableValue env variableName dir [] 0 st with
    | (v, st1) =>
      match resolveVariableInMultipleContexts env variableName rest st1 with
      | (results, st2) =>
        ((match v with
          | some s => if jsTrim s ≠ "" then (s, dir) :: results else results
          | none => results), st2)

/-! ## Concrete workspaces used by witnesses and counterexamples -/

/-- `region` is supplied both by a `.tfvars` override file and by a
locals block in the same directory. -/
def envOverride : Env :=
  { fs := [⟨"/w", [⟨"main.tf", some "locals \x7b\n  region = \"local-val\"\n\x7d\n"⟩,
                   ⟨"prod.tfvars", some "region = \"tf-val\"\n"⟩]⟩],
    workspaceRoot := "/w", now := 0 }

/-- A module call in `/w` invokes `/w/child` with `size = var.env_size`;
`env_size` is declared only in `/w`. -/
def envModule : Env :=
  { fs := [⟨"/w", [⟨"main.tf",
              some "module \"child\" \x7b\n  source = \"./child\"\n  size = var.env_size\n\x7d\n"⟩,
            ⟨"env.tfvars", some "env_size = \"large\"\n"⟩]⟩,
           ⟨"/w/child", []⟩],
    workspaceRoot := "/w", now := 0 }

/-- `local.a = local.b` and `local.b = local.a` in the same scope. -/
def envCycle : Env :=
  { fs := [⟨"/w", [⟨"main.tf", some "locals \x7b\n  a = local.b\n  b = local.a\n\x7d\n"⟩]⟩],
    workspaceRoot := "/w", now := 0 }

/-- A single local `a = "1"`. -/
def envLocal : Env :=
  { fs := [⟨"/w", [⟨"main.tf", some "locals \x7b\n  a = \"1\"\n\x7d\n"⟩]⟩],
    workspaceRoot := "/w", now := 0 }

/-- The cache state after a top-level enhanced resolution of `a` in
`envLocal` (holding `enhanced:a:/w:0:` among others). -/
def warmState : RState :=
  (resolveVariableValueEnhanced envLocal "a" "/w" [] 0 [] RState.empty).2

/-- An unreadable `.tfvars` file listed before a readable one defining
the same variable. -/
def envIO : Env :=
  { fs := [⟨"/w", [⟨"bad.tfvars", none⟩, ⟨"good.tfvars", some "x = \"ok\"\n"⟩]⟩],
    workspaceRoot := "/w", now := 0 }

/-- `x` is declared only in the parent `/w` of `/w/app`. -/
def envParent : Env :=
  { fs := [⟨"/w", [⟨"env.tfvars", some "x = \"pv\"\n"⟩]⟩, ⟨"/w/app", []⟩],
    workspaceRoot := "/w", now := 0 }

/-- `x` is declared eleven directory levels above the start directory,
one more than the recursion bound allows. -/
def envDeep : Env :=
  { fs := [⟨"/w/a1", [⟨"a.tfvars", some "x = \"deep\"\n"⟩]⟩],
    workspaceRoot := "/w", now := 0 }

def deepDir : String := "/w/a1/a2/a3/a4/a5/a6/a7/a8/a9/a10/a11/a12"

/-- Workspace root `/w/app`, with the sibling `/w/app2` extending it
textually. -/
def envApp : Env := { fs := [], workspaceRoot := "/w/app", now := 0 }

/-- A variable assigned a braced object value spanning multiple lines,
with one level of nesting. -/
def nestedObjContent : String :=
  "cfg = \x7b\n  inner = \x7b\n    x = 1\n  \x7d\n\x7d\n"

/-- The complete object text of `cfg` in `nestedObjContent`. -/
def nestedObjComplete : String :=
  "\x7b\n  inner = \x7b\n    x = 1\n  \x7d\n\x7d"

/-- A `.tfvars.json` content with a four-element array. -/
def jsonArrContent : String := "\x7b\"x\": [1, 2, 3, 4]\x7d"

/-! ## Claims -/

/-- **C1.** At each directory, `resolveVariableValue` consults sources in
a fixed order and stops at the first hit: `.tfvars`/`.tfvars.json` files
first, then locals, then outputs.  In particular a name supplied both by
an override file and by a locals block resolves to the override file's
value (first conjunct: a tfvars hit is returned regardless of locals and
outputs), locals are consulted only after tfvars misses, and outputs only
after both miss. -/
theorem claim1_resolution_order (env : Env) (fuel : Nat)
    (variableName currentDir : String) (visited : List String) (depth : Nat)
    (st st1 st2 st3 st4 : RState) (v : String)
    (hdepth : ¬ maxRecursionDepth < depth)
    (hcache : cacheGetS env st (resolveKey variableName currentDir depth) = (none, st1))
    (hvis : visitKeyOf currentDir variableName depth ∉ visited) :
    (findInTfvarsFiles env variableName currentDir st1 = (some v, st2) →
      (resolveVariableValueF env (fuel + 1) variableName currentDir visited depth st).1 = some v) ∧
    (findInTfvarsFiles env variableName currentDir st1 = (none, st2) →
      findInLocals env variableName currentDir st2 = (some v, st3) →
      (resolveVariableValueF env (fuel + 1) variableName currentDir visited depth st).1 = some v) ∧
    (findInTfvarsFiles env variableName currentDir st1 = (none, st2) →
      findInLocals env variableName currentDir st2 = (none, st3) →
      findInOutputs env variableName currentDir st3 = (some v, st4) →
      (resolveVariableValueF env (fuel + 1) variableName currentDir visited depth st).1 = some v) := by
  refine ⟨fun h1 => ?_, fun h1 h2 => ?_, fun h1 h2 h3 => ?_⟩
  · simp [resolveVariableValueF, resolverGo, hdepth, hcache, hvis, h1]
  · simp [resolveVariableValueF, resolverGo, hdepth, hcache, hvis, h1, h2]
  · simp [resolveVariableValueF, resolverGo, hdepth, hcache, hvis, h1, h2, h3]

/-- Witness for C1 on `envOverride`: `region` is defined by both the
override file (value `tf-val`) and the locals block (value `local-val`),
and resolution returns the override file's value. -/
theorem claim1_witness :
    (resolveVariableValueF envOverride (127 + 1) "region" "/w" [] 0 RState.empty).1 =
      some "tf-val" ∧
    (findInLocals envOverride "region" "/w" RState.empty).1 = some "local-val" := by
  constructor
  · exact (claim1_resolution_order envOverride 127 "region" "/w" [] 0 RState.empty
      RState.empty ((findInTfvarsFiles envOverride "region" "/w" RState.empty).2)
      RState.empty RState.empty "tf-val" (by decide) (by decide) (by decide)).1 (by decide)
  · decide

/-- **C2.** Module-input threading: when the directory-local sources all
miss, enhanced resolution (with an empty module context) consults
`resolveAsModuleInput` before any parent fallback and returns its hit
(first conjunct); `resolveAsModuleInput` searches the parent directory
for a `ModuleCall` whose `source` resolves to the start directory and,
when that call assigns the variable, resolves the assigned argument
expression in the parent's own context (second and third conjuncts); a
`var.`-shaped argument expression is resolved by re-entering enhanced
resolution on the bare name in that parent context (fourth conjunct). -/
theorem claim2_module_input_threading :
    (∀ (env : Env) (fuel : Nat) (variableName currentDir : String) (visited : List String)
      (depth : Nat) (st st1 st2 st3 st4 st5 : RState) (v : String),
      ¬ maxRecursionDepth < depth →
      cacheGetS env st (enhancedKey variableName currentDir depth []) = (none, st1) →
      visitKeyOf currentDir variableName depth ∉ visited →
      findInTfvarsFiles env variableName currentDir st1 = (none, st2) →
      findInLocals env variableName currentDir st2 = (none, st3) →
      findInOutputs env variableName currentDir st3 = (none, st4) →
      resolveAsModuleInputF env fuel variableName currentDir
        (visitKeyOf currentDir variableName depth :: visited) (depth + 1) st4 = (some v, st5) →
      (resolveVariableValueEnhancedF env (fuel + 1) variableName currentDir visited depth []
        st).1 = some v) ∧
    (∀ (env : Env) (fuel : Nat) (variableName moduleDir : String) (visited : List String)
      (depth : Nat) (st st1 : RState) (calls : List ModuleCall),
      isWithinWorkspace env (pathDirname moduleDir) = true →
      findModuleCallsToDirectory env (pathDirname moduleDir) moduleDir st = (calls, st1) →
      resolveAsModuleInputF env (fuel + 1) variableName moduleDir visited depth st =
        moduleInputLoopF env fuel calls variableName (pathDirname moduleDir) visited depth st1) ∧
    (∀ (env : Env) (fuel : Nat) (variableName parentDir : String) (visited : List String)
      (depth : Nat) (st st1 : RState) (mcCall : ModuleCall) (restCalls : List ModuleCall)
      (ref v : String),
      lookupAssoc mcCall.vars variableName = some ref →
      ref ≠ "" →
      resolveVariableReferenceF env fuel ref parentDir visited depth st = (some v, st1) →
      (moduleInputLoopF env (fuel + 1) (mcCall :: restCalls) variableName parentDir visited
        depth st).1 = some v) ∧
    (∀ (env : Env) (fuel : Nat) (reference contextDir : String) (visited : List String)
      (depth : Nat) (st : RState),
      jsStartsWith (cleanRefOf reference) "var." = true →
      resolveVariableReferenceF env (fuel + 1) reference contextDir visited depth st =
        resolveVariableValueEnhancedF env fuel ((cleanRefOf reference).drop 4) contextDir
          visited depth [] st) := by
  refine ⟨?_, ?_, ?_, ?_⟩
  · intro env fuel variableName currentDir visited depth st st1 st2 st3 st4 st5 v
      hdepth hcache hvis h1 h2 h3 hrami
    simp only [resolveAsModuleInputF] at hrami
    simp [resolveVariableValueEnhancedF, resolverGo, hdepth, hcache, hvis, h1, h2, h3, hrami]
  · intro env fuel variableName moduleDir visited depth st st1 calls hws hcalls
    simp [resolveAsModuleInputF, moduleInputLoopF, resolverGo, hws, hcalls]
  · intro env fuel variableName parentDir visited depth st st1 mcCall restCalls ref v
      hlook href hrvr
    simp only [resolveVariableReferenceF] at hrvr
    simp [moduleInputLoopF, resolverGo, hlook, href, hrvr]
  · intro env fuel reference contextDir visited depth st hvar
    simp [resolveVariableReferenceF, resolveVariableValueEnhancedF, resolverGo, hvar]

/-- Witness for C2 on `envModule`: the module call in `/w` invokes
`/w/child` with `size = var.env_size` and `env_size = "large"` is
declared only in `/w`; enhanced resolution of `size` from `/w/child`
returns `"large"`. -/
theorem claim2_witness :
    (resolveVariableValueEnhancedF envModule (127 + 1) "size" "/w/child" [] 0 []
      RState.empty).1 = some "large" :=
  claim2_module_input_threading.1 envModule 127 "size" "/w/child" [] 0
    RState.empty RState.empty RState.empty RState.empty RState.empty
    ((resolveAsModuleInputF envModule 127 "size" "/w/child" ["/w/child:size:0"] 1
      RState.empty).2)
    "large" (by decide) (by decide) (by decide) (by decide) (by decide) (by decide) (by decide)

/-- **C3.** The recursion depth is globally bounded at
`maxRecursionDepth = 10`: called with any greater depth, both resolvers
return not-found immediately with the state untouched — no error, no
recursive call (first conjunct, for every fuel, i.e. along every
execution).  Concretely, a directory-parent chain that would need more
than the maximum depth resolves to `null` even though the value exists
(second conjunct), while the same value within the bound is found (third
conjunct); every recursive re-entry passes `depth + 1`, which is what the
guard bounds. -/
theorem claim3_depth_bounded :
    (∀ (env : Env) (fuel : Nat) (variableName currentDir : String) (visited : List String)
      (depth : Nat) (moduleContext : List String) (st : RState),
      maxRecursionDepth < depth →
      resolveVariableValueF env fuel variableName currentDir visited depth st = (none, st) ∧
      resolveVariableValueEnhancedF env fuel variableName currentDir visited depth
        moduleContext st = (none, st)) ∧
    (resolveVariableValue envDeep "x" deepDir [] 0 RState.empty).1 = none ∧
    (resolveVariableValue envDeep "x" "/w/a1/a2" [] 0 RState.empty).1 = some "deep" := by
  refine ⟨?_, by decide, by decide⟩
  intro env fuel variableName currentDir visited depth moduleContext st h
  cases fuel with
  | zero => exact ⟨rfl, rfl⟩
  | succ n =>
    constructor
    · simp [resolveVariableValueF, resolverGo, h]
    · simp [resolveVariableValueEnhancedF, resolverGo, h]

/-- Witness for C3 at depth 11. -/
theorem claim3_witness :
    maxRecursionDepth < 11 ∧
    resolveVariableValueF envDeep 128 "x" "/w" [] 11 RState.empty = (none, RState.empty) ∧
    resolveVariableValueEnhancedF envDeep 128 "x" "/w" [] 11 [] RState.empty =
      (none, RState.empty) :=
  ⟨by decide,
   (claim3_depth_bounded.1 envDeep 128 "x" "/w" [] 11 [] RState.empty (by decide)).1,
   (claim3_depth_bounded.1 envDeep 128 "x" "/w" [] 11 [] RState.empty (by decide)).2⟩

/-- Counterexample to **C4** as stated: with `local.a = local.b` and
`local.b = local.a` in the same scope, resolving `a` does *not* return
null — the enhanced resolver returns the text `local.a` (the locals
body after one substitution pass) and the plain resolver returns
`local.b`, because the visited-set key includes the depth and every
re-entry happens at a strictly greater depth, so the cycle check never
fires here. -/
theorem claim4_counterexample :
    (resolveVariableValueEnhanced envCycle "a" "/w" [] 0 [] RState.empty).1 = some "local.a" ∧
    (resolveVariableValue envCycle "a" "/w" [] 0 RState.empty).1 = some "local.b" ∧
    (resolveVariableValueEnhanced envCycle "a" "/w" [] 0 [] RState.empty).1 ≠ none := by
  exact ⟨by decide, by decide, by decide⟩

/-- **C4 (amended).** Resolving `local.a` in the mutual-cycle scope
terminates and returns the literal referencing text (`local.a` after the
enhanced substitution pass, `local.b` verbatim in plain resolution)
rather than null (first two conjuncts).  A resolution that re-enters the
exact `(directory, reference, depth)` context already on its own call
stack is treated as not-found for that branch only — a normal `null`
return with the state as after the cache probe, never a thrown error
(last two conjuncts); the visited set is threaded per call frame
(entries removed on return), so sibling branches are unaffected. -/
theorem claim4_cycle_amended :
    ((resolveVariableValueEnhanced envCycle "a" "/w" [] 0 [] RState.empty).1 =
      some "local.a") ∧
    ((resolveVariableValue envCycle "a" "/w" [] 0 RState.empty).1 = some "local.b") ∧
    (∀ (env : Env) (fuel : Nat) (variableName currentDir : String) (visited : List String)
      (depth : Nat) (moduleContext : List String) (st st1 : RState),
      ¬ maxRecursionDepth < depth →
      cacheGetS env st (enhancedKey variableName currentDir depth moduleContext) = (none, st1) →
      visitKeyOf currentDir variableName depth ∈ visited →
      resolveVariableValueEnhancedF env (fuel + 1) variableName currentDir visited depth
        moduleContext st = (none, st1)) ∧
    (∀ (env : Env) (fuel : Nat) (variableName currentDir : String) (visited : List String)
      (depth : Nat) (st st1 : RState),
      ¬ maxRecursionDepth < depth →
      cacheGetS env st (resolveKey variableName currentDir depth) = (none, st1) →
      visitKeyOf currentDir variableName depth ∈ visited →
      resolveVariableValueF env (fuel + 1) variableName currentDir visited depth st =
        (none, st1)) := by
  refine ⟨by decide, by decide, ?_, ?_⟩
  · intro env fuel variableName currentDir visited depth moduleContext st st1 hdepth hcache hvis
    simp [resolveVariableValueEnhancedF, resolverGo, hdepth, hcache, hvis]
  · intro env fuel variableName currentDir visited depth st st1 hdepth hcache hvis
    simp [resolveVariableValueF, resolverGo, hdepth, hcache, hvis]

/-- Witness for C4 (amended): the stack-re-entry branch at a concrete
input. -/
theorem claim4_witness :
    resolveVariableValueEnhancedF envCycle (127 + 1) "a" "/w" ["/w:a:0"] 0 [] RState.empty =
      (none, RState.empty) ∧
    resolveVariableValueF envCycle (127 + 1) "a" "/w" ["/w:a:0"] 0 RState.empty =
      (none, RState.empty) :=
  ⟨claim4_cycle_amended.2.2.1 envCycle 127 "a" "/w" ["/w:a:0"] 0 [] RState.empty RState.empty
    (by decide) (by decide) (by decide),
   claim4_cycle_amended.2.2.2 envCycle 127 "a" "/w" ["/w:a:0"] 0 RState.empty RState.empty
    (by decide) (by decide) (by decide)⟩

/-- Counterexample to **C5** as stated: with an unmodified file set,
resolving `a` from `/w` with `visited = ["/w:a:0"]` returns `null` on a
cold cache, but returns the cached `"1"` on a cache warmed by the
top-level resolution of the same name — the cache lookup precedes the
cycle check and the key omits the visited set, so warm and cold answers
differ. -/
theorem claim5_counterexample :
    (resolveVariableValueEnhanced envLocal "a" "/w" ["/w:a:0"] 0 [] warmState).1 =
      some "1" ∧
    (resolveVariableValueEnhanced envLocal "a" "/w" ["/w:a:0"] 0 [] RState.empty).1 =
      none := by
  exact ⟨by decide, by decide⟩

/-- **C5 (amended).** Every `enhanced:` cache key is a deterministic
function of the reference name, directory, depth and module context —
but not of the visited set (first conjunct: the key is literally built
from those four inputs), and the visited set does influence the result;
consequently a value cached during one resolution is returned in a
distinct resolution context (same name/directory/depth, different
visited set) where the cold-cache answer would be null (remaining
conjuncts, on `envLocal`). -/
theorem claim5_cache_key_amended :
    (∀ (n d : String) (depth : Nat) (mc : List String),
      enhancedKey n d depth mc =
        "enhanced:" ++ n ++ ":" ++ d ++ ":" ++ toString depth ++ ":" ++
          String.intercalate "," mc) ∧
    ((resolveVariableValueEnhanced envLocal "a" "/w" [] 0 [] RState.empty).1 = some "1") ∧
    ((cacheGet 0 warmState.cache (enhancedKey "a" "/w" 0 [])).1 = some "1") ∧
    ((resolveVariableValueEnhanced envLocal "a" "/w" ["/w:a:0"] 0 [] RState.empty).1 =
      none) ∧
    ((resolveVariableValueEnhanced envLocal "a" "/w" ["/w:a:0"] 0 [] warmState).1 =
      some "1") := by
  exact ⟨fun n d depth mc => rfl, by decide, by decide, by decide, by decide⟩

/-- **C6.** Every resolution operation is total for its caller (the
embedding returns `Option`, mirroring the source's catch-all handlers
that convert every exception to `null`).  An I/O error on one file is a
skip, not an abort: the `.tfvars` loop and the `.tf` loop continue with
the remaining files (first two conjuncts); `resolveVariableInMultipleContexts`
turns per-directory failures into omissions and keeps hits in candidate
order (third and fourth conjuncts); and concretely, with an unreadable
`.tfvars` file listed first, the variable is still found in the next
file (last conjunct). -/
theorem claim6_total_failure_semantics :
    (∀ (env : Env) (name dir key f : String) (rest : List String) (st : RState),
      readFileFS env dir f = none →
      tfvarsLoop env name dir key (f :: rest) st = tfvarsLoop env name dir key rest st) ∧
    (∀ (env : Env) (dir key : String) (parse : String → Option String) (f : String)
      (rest : List String) (st : RState),
      readFileFS env dir f = none →
      tfFileLoop env dir key parse (f :: rest) st = tfFileLoop env dir key parse rest st) ∧
    (∀ (env : Env) (name dir : String) (rest : List String) (st : RState),
      (resolveVariableValue env name dir [] 0 st).1 = none →
      (resolveVariableInMultipleContexts env name (dir :: rest) st).1 =
        (resolveVariableInMultipleContexts env name rest
          (resolveVariableValue env name dir [] 0 st).2).1) ∧
    (∀ (env : Env) (name dir : String) (rest : List String) (st : RState) (v : String),
      (resolveVariableValue env name dir [] 0 st).1 = some v →
      jsTrim v ≠ "" →
      (resolveVariableInMultipleContexts env name (dir :: rest) st).1 =
        (v, dir) :: (resolveVariableInMultipleContexts env name rest
          (resolveVariableValue env name dir [] 0 st).2).1) ∧
    (resolveVariableValue envIO "x" "/w" [] 0 RState.empty).1 = some "ok" := by
  refine ⟨?_, ?_, ?_, ?_, by decide⟩
  · intro env name dir key f rest st h
    simp [tfvarsLoop, h]
  · intro env dir key parse f rest st h
    simp [tfFileLoop, h]
  · intro env name dir rest st h
    rcases hp : resolveVariableValue env name dir [] 0 st with ⟨v?, st1⟩
    rw [hp] at h
    simp at h
    subst h
    simp [resolveVariableInMultipleContexts, hp]
  · intro env name dir rest st v h htrim
    rcases hp : resolveVariableValue env name dir [] 0 st with ⟨v?, st1⟩
    rw [hp] at h
    simp at h
    subst h
    simp [resolveVariableInMultipleContexts, hp, htrim]

/-- Witness for C6: the unreadable `bad.tfvars` of `envIO` is skipped and
the loop proceeds with `good.tfvars`. -/
theorem claim6_witness :
    tfvarsLoop envIO "x" "/w" (tfvarsKey "x" "/w") ["bad.tfvars", "good.tfvars"] RState.empty =
      tfvarsLoop envIO "x" "/w" (tfvarsKey "x" "/w") ["good.tfvars"] RState.empty :=
  claim6_total_failure_semantics.1 envIO "x" "/w" (tfvarsKey "x" "/w") "bad.tfvars"
    ["good.tfvars"] RState.empty (by decide)

/-- **C7.** Parent-directory fallback: when every directory-local source
misses and the reference is not module-shaped, resolution retries in
`path.dirname` of the directory, provided it differs from the directory
and passes the workspace containment check, and returns the parent's
value (first conjunct); when the parent fails the containment check the
resolution stops with not-found instead of walking further up (second
conjunct). -/
theorem claim7_parent_fallback (env : Env) (fuel : Nat)
    (variableName currentDir : String) (visited : List String) (depth : Nat)
    (st st1 st2 st3 st4 : RState)
    (hdepth : ¬ maxRecursionDepth < depth)
    (hcache : cacheGetS env st (resolveKey variableName currentDir depth) = (none, st1))
    (hvis : visitKeyOf currentDir variableName depth ∉ visited)
    (h1 : findInTfvarsFiles env variableName currentDir st1 = (none, st2))
    (h2 : findInLocals env variableName currentDir st2 = (none, st3))
    (h3 : findInOutputs env variableName currentDir st3 = (none, st4))
    (hmod : jsStartsWith variableName "module." = false) :
    (∀ (v : String) (st5 : RState),
      pathDirname currentDir ≠ currentDir →
      isWithinWorkspace env (pathDirname currentDir) = true →
      resolveVariableValueF env fuel variableName (pathDirname currentDir)
        (visitKeyOf currentDir variableName depth :: visited) (depth + 1) st4 =
        (some v, st5) →
      (resolveVariableValueF env (fuel + 1) variableName currentDir visited depth st).1 =
        some v) ∧
    (isWithinWorkspace env (pathDirname currentDir) = false →
      (resolveVariableValueF env (fuel + 1) variableName currentDir visited depth st).1 =
        none) := by
  constructor
  · intro v st5 hpar hws hrec
    simp only [resolveVariableValueF] at hrec
    simp [resolveVariableValueF, resolverGo, hdepth, hcache, hvis, h1, h2, h3, hmod,
      hpar, hws, hrec]
  · intro hws
    simp [resolveVariableValueF, resolverGo, hdepth, hcache, hvis, h1, h2, h3, hmod, hws]

/-- Witness for C7 on `envParent`: `x` has no declaration in `/w/app`
but `x = "pv"` in the parent `/w`, which is inside the workspace, and
resolution from `/w/app` returns `"pv"`. -/
theorem claim7_witness :
    (resolveVariableValueF envParent (127 + 1) "x" "/w/app" [] 0 RState.empty).1 =
      some "pv" :=
  (claim7_parent_fallback envParent 127 "x" "/w/app" [] 0 RState.empty
      RState.empty RState.empty RState.empty RState.empty
      (by decide) (by decide) (by decide) (by decide) (by decide) (by decide) (by decide)).1
    "pv"
    ((resolveVariableValueF envParent 127 "x" "/w" ["/w/app:x:0"] 1 RState.empty).2)
    (by decide) (by decide) (by decide)

/-- **C8.** The code, evaluated at the failing input: for the two-line
nested object assignment of `nestedObjContent`, `parseHclVariable`
returns just `"{"` instead of the complete object text — the
brace-depth tracking of `extractCompleteObject` counts occurrences of
the two-character sequence backslash-brace (its regex literals are
`/\\{/g` and `/\\}/g`), so the opening line appears balanced and the
extraction stops immediately (third conjunct: the opening line counts
zero).  The string-aware scan prescribed by the claim exists
(`hasMatchingBraces`, second conjunct recognises the complete text as
balanced) but is only used as a pre-check, never for extent
extraction. -/
theorem claim8_escaped_brace_bug :
    parseHclVariable nestedObjContent "cfg" = some "\x7b" ∧
    hasMatchingBraces nestedObjComplete = true ∧
    countSeq '\\' '\x7b' ("cfg = \x7b".data) = 0 := by
  exact ⟨by decide, by decide, by decide⟩

/-- `formatValueList` is the elementwise `formatValue` map (the source's
`value.map(v => this.formatValue(v))`). -/
theorem formatValueList_eq_map (l : List JsonValue) :
    formatValueList l = l.map formatValue := by
  induction l with
  | nil => simp [formatValueList]
  | cons h t ih => simp [formatValueList, ih]

/-- `formatValueKVs` is the elementwise `k = formatValue v` map. -/
theorem formatValueKVs_eq_map (kvs : List (String × JsonValue)) :
    formatValueKVs kvs = kvs.map (fun kv => kv.1 ++ " = " ++ formatValue kv.2) := by
  induction kvs with
  | nil => simp [formatValueKVs]
  | cons h t ih => simp [formatValueKVs, ih]

/-- **C9.** `parseJsonVariable` never returns the literal source text of
a structured value: a JSON array with more than 3 elements is rendered
as its first three formatted elements followed by `, ...]` (first
conjunct), a JSON object with more than 3 entries as its first two
`k = v` pairs followed by `, ... }` (second conjunct), and a plain JSON
string is wrapped in double quotes (third conjunct); concretely, a
four-element array is truncated (fourth conjunct) rather than echoed
(fifth conjunct). -/
theorem claim9_json_truncation :
    (∀ l : List JsonValue, 3 < l.length →
      formatValue (JsonValue.jarr l) =
        "[" ++ String.intercalate ", " ((l.take 3).map formatValue) ++ ", ...]") ∧
    (∀ kvs : List (String × JsonValue), 3 < kvs.length →
      formatValue (JsonValue.jobj kvs) =
        "\x7b " ++ String.intercalate ", "
          ((kvs.take 2).map (fun kv => kv.1 ++ " = " ++ formatValue kv.2)) ++ ", ... \x7d") ∧
    (∀ s : String, formatValue (JsonValue.jstr s) = "\"" ++ s ++ "\"") ∧
    parseJsonVariable jsonArrContent "x" = some "[1, 2, 3, ...]" ∧
    parseJsonVariable jsonArrContent "x" ≠ some "[1, 2, 3, 4]" := by
  refine ⟨?_, ?_, fun s => rfl, by decide, by decide⟩
  · intro l h
    have h0 : ¬ l.length = 0 := by omega
    simp [formatValue, h0, h, formatValueList_eq_map, List.map_take]
  · intro kvs h
    have h0 : ¬ kvs.length = 0 := by omega
    simp [formatValue, h0, h, formatValueKVs_eq_map, List.map_take]

/-- Witness for C9: the truncation conjuncts applied to a concrete
four-element array and four-entry object. -/
theorem claim9_witness :
    (3 < ([JsonValue.jnum 1, JsonValue.jnum 2, JsonValue.jnum 3, JsonValue.jnum 4] :
      List JsonValue).length ∧
     formatValue (JsonValue.jarr [JsonValue.jnum 1, JsonValue.jnum 2, JsonValue.jnum 3,
        JsonValue.jnum 4]) =
      "[" ++ String.intercalate ", "
        (([JsonValue.jnum 1, JsonValue.jnum 2, JsonValue.jnum 3,
          JsonValue.jnum 4].take 3).map formatValue) ++ ", ...]") ∧
    formatValue (JsonValue.jobj [("a", JsonValue.jnum 1), ("b", JsonValue.jnum 2),
        ("c", JsonValue.jnum 3), ("d", JsonValue.jnum 4)]) =
      "\x7b " ++ String.intercalate ", "
        (([("a", JsonValue.jnum 1), ("b", JsonValue.jnum 2), ("c", JsonValue.jnum 3),
          ("d", JsonValue.jnum 4)].take 2).map
            (fun kv => kv.1 ++ " = " ++ formatValue kv.2)) ++ ", ... \x7d" :=
  ⟨⟨by decide,
    claim9_json_truncation.1 [JsonValue.jnum 1, JsonValue.jnum 2, JsonValue.jnum 3,
      JsonValue.jnum 4] (by decide)⟩,
   claim9_json_truncation.2.1 [("a", JsonValue.jnum 1), ("b", JsonValue.jnum 2),
      ("c", JsonValue.jnum 3), ("d", JsonValue.jnum 4)] (by decide)⟩

/-- **C10.** The workspace containment check is exactly a plain
string-prefix test on normalized paths (first conjunct, definitional);
consequently the sibling directory `/w/app2` is classified as inside a
workspace rooted at `/w/app` (second conjunct) although it is neither
the root itself (third conjunct) nor below it (fourth conjunct: it does
not extend the root with a path separator).  Module path resolution
gates its results with the same check (fifth conjunct). -/
theorem claim10_workspace_prefix :
    (∀ (env : Env) (dirPath : String),
      isWithinWorkspace env dirPath =
        jsStartsWith (pathNormalize dirPath) (pathNormalize env.workspaceRoot)) ∧
    isWithinWorkspace envApp "/w/app2" = true ∧
    "/w/app2" ≠ "/w/app" ∧
    jsStartsWith "/w/app2" ("/w/app" ++ "/") = false ∧
    (∀ (env : Env) (source currentDir p : String),
      resolveModulePathCore env source currentDir = some p →
      isWithinWorkspace env p = true) := by
  refine ⟨fun env d => rfl, by decide, by decide, by decide, ?_⟩
  intro env source currentDir p h
  simp only [resolveModulePathCore] at h
  revert h
  generalize (if jsStartsWith source "./" || jsStartsWith source "../" then
      (if directoryExists env (pathResolve currentDir source) then
        some (pathResolve currentDir source) else none)
    else if jsStartsWith source "/" then
      (if directoryExists env (pathJoin env.workspaceRoot source) then
        some (pathJoin env.workspaceRoot source) else none)
    else if containsSub "terraform.io".data source.data ||
        containsSub "github.com".data source.data then none
    else
      (if directoryExists env (pathResolve currentDir source) then
        some (pathResolve currentDir source) else none)) = o
  intro h
  cases o with
  | none => simp [wsGate] at h
  | some q =>
    by_cases hq : isWithinWorkspace env q = true
    · simp [wsGate, hq] at h
      subst h
      exact hq
    · simp [wsGate, hq] at h

/-- Witness for C10: the module source `./child` of `envModule` resolves
to `/w/child`, which the workspace gate of module path resolution
accepts. -/
theorem claim10_witness :
    resolveModulePathCore envModule "./child" "/w" = some "/w/child" ∧
    isWithinWorkspace envModule "/w/child" = true :=
  ⟨by decide,
   claim10_workspace_prefix.2.2.2.2 envModule "./child" "/w" "/w/child" (by decide)⟩

end TfResolve
